import Mathlib

/-!
Shallow embedding of the giffer GIF container codec (src/lib.rs, src/decoder.rs,
src/encoder.rs) and proofs about it.

Bytes are modelled as natural numbers (a well-formed stream holds values < 256);
u8/u16 wrap-around arithmetic from the source is made explicit with `% 256` and
`% 65536`.  The Rust decoder walks an immutable buffer with a mutable
`Context { offset, graphic_control_extension }` cursor and panics on
out-of-bounds indexing/slicing; every read in the source is at the current
offset (the cursor only moves forward), so the embedding threads the remaining
suffix of the input together with the numeric offset, and models an
out-of-bounds panic as the `DecodeError.outOfBounds` error value.  The two
unbounded source loops (`DataSubBlocks::decode` and the top-level block loop)
consume at least one byte per iteration; they are embedded with an explicit
fuel parameter instantiated with `remaining.length + 1`, which can never be
exhausted (the `fuelExhausted` branch is dead code kept only for totality).
-/

namespace Giffer

/-- Wrapping left shift on u8 values (`x << n` in Rust u8 arithmetic). -/
def u8shl (x n : Nat) : Nat := (x <<< n) % 256

/-- Right shift on u8 values (`x >> n` in Rust u8 arithmetic; never wraps). -/
def u8shr (x n : Nat) : Nat := x >>> n

/-- Truncating cast to u8 (`as u8` in Rust). -/
def u8cast (x : Nat) : Nat := x % 256

/-- Wrapping left shift on u16 values (`x << n` in Rust u16 arithmetic). -/
def u16shl (x n : Nat) : Nat := (x <<< n) % 65536

/-- Big-endian 16-bit read: `((b0 as u16) << 8) | b1 as u16` from the source. -/
def u16of (b0 b1 : Nat) : Nat := (b0 <<< 8) ||| b1

/-- Big-endian 16-bit write: the source pushes `(x >> 8) as u8` then
`((x << 8) >> 8) as u8` (u16 arithmetic). -/
def encodeU16 (x : Nat) : List Nat := [u8cast (x >>> 8), u8cast (u16shl x 8 >>> 8)]

/-- `GraphicControlExtension` of src/lib.rs. -/
structure GraphicControlExtension where
  packed_fields : Nat
  delay_time : Nat
  transparent_color_index : Nat
deriving DecidableEq, Repr

/-- Disposal method bits (`(packed_fields << 3) >> 5` on u8). -/
def GraphicControlExtension.disposal_method (g : GraphicControlExtension) : Nat :=
  u8shr (u8shl g.packed_fields 3) 5

/-- User input flag bit (`(packed_fields << 6) >> 7` on u8). -/
def GraphicControlExtension.user_input_flag (g : GraphicControlExtension) : Nat :=
  u8shr (u8shl g.packed_fields 6) 7

/-- Transparent color flag bit (`(packed_fields << 7) >> 7` on u8). -/
def GraphicControlExtension.transparent_color_flag (g : GraphicControlExtension) : Nat :=
  u8shr (u8shl g.packed_fields 7) 7

/-- Decode context of src/lib.rs: current offset plus the single pending
graphic-control modifier slot. -/
structure Context where
  offset : Nat
  graphic_control_extension : Option GraphicControlExtension
deriving DecidableEq, Repr

/-- `ColorTable` of src/lib.rs (a borrowed byte view in the source; the bytes
themselves here). -/
structure ColorTable where
  pixels : List Nat
deriving DecidableEq, Repr

/-- `ColorTable::get_pixel`: the slice `&pixels[idx*3 .. idx*3+3]`; Rust panics
when the range is out of bounds, modelled as `none`. -/
def ColorTable.get_pixel (t : ColorTable) (idx : Nat) : Option (List Nat) :=
  if idx * 3 + 3 ≤ t.pixels.length then some ((t.pixels.drop (idx * 3)).take 3) else none

/-- `LogicalScreenDescriptor` of src/lib.rs. -/
structure LogicalScreenDescriptor where
  logical_screen_width : Nat
  logical_screen_height : Nat
  packed_fields : Nat
  background_color_index : Nat
  pixel_aspect_ratio : Nat
  global_color_table : Option ColorTable
deriving DecidableEq, Repr

/-- Global color table flag: `packed_fields >> 7` (MSB). -/
def LogicalScreenDescriptor.global_color_table_flag (s : LogicalScreenDescriptor) : Nat :=
  u8shr s.packed_fields 7

/-- Color resolution bits: `(packed_fields << 1) >> 5` on u8. -/
def LogicalScreenDescriptor.color_resolution (s : LogicalScreenDescriptor) : Nat :=
  u8shr (u8shl s.packed_fields 1) 5

/-- Sort flag: `(packed_fields << 4) >> 7` on u8. -/
def LogicalScreenDescriptor.sort_flag (s : LogicalScreenDescriptor) : Nat :=
  u8shr (u8shl s.packed_fields 4) 7

/-- Global color table size exponent: `(packed_fields << 5) >> 5` on u8 (3 LSBs). -/
def LogicalScreenDescriptor.global_color_table_size (s : LogicalScreenDescriptor) : Nat :=
  u8shr (u8shl s.packed_fields 5) 5

/-- `DataSubBlock` of src/lib.rs: one length-prefixed chunk. -/
structure DataSubBlock where
  block_size : Nat
  data : List Nat
deriving DecidableEq, Repr

/-- `DataSubBlock::BLOCK_TERMINATOR`. -/
def DataSubBlock.BLOCK_TERMINATOR : Nat := 0x00

/-- `DataSubBlocks` of src/lib.rs: a chunk chain. -/
structure DataSubBlocks where
  blocks : List DataSubBlock
deriving DecidableEq, Repr

/-- `ApplicationExtension` of src/lib.rs. -/
structure ApplicationExtension where
  identifier : List Nat
  authentication_code : List Nat
  data : DataSubBlocks
deriving DecidableEq, Repr

/-- `ApplicationExtension::LABEL`. -/
def ApplicationExtension.LABEL : Nat := 0xff

/-- `ApplicationExtension::BLOCK_SIZE`. -/
def ApplicationExtension.BLOCK_SIZE : Nat := 11

/-- `PlainTextExtension` of src/lib.rs. -/
structure PlainTextExtension where
  text_grid_left_position : Nat
  text_grid_top_position : Nat
  text_grid_width : Nat
  text_grid_height : Nat
  character_cell_width : Nat
  character_cell_height : Nat
  text_foreground_color_index : Nat
  text_background_color_index : Nat
  data : DataSubBlocks
  graphic_control_extension : Option GraphicControlExtension
deriving DecidableEq, Repr

/-- `PlainTextExtension::LABEL`. -/
def PlainTextExtension.LABEL : Nat := 0x01

/-- `PlainTextExtension::BLOCK_SIZE`. -/
def PlainTextExtension.BLOCK_SIZE : Nat := 12

/-- `GraphicControlExtension::LABEL`. -/
def GraphicControlExtension.LABEL : Nat := 0xf9

/-- `GraphicControlExtension::BLOCK_SIZE`. -/
def GraphicControlExtension.BLOCK_SIZE : Nat := 4

/-- `CommentExtension` of src/lib.rs. -/
structure CommentExtension where
  data : DataSubBlocks
deriving DecidableEq, Repr

/-- `CommentExtension::LABEL`. -/
def CommentExtension.LABEL : Nat := 0xfe

/-- `TableBasedImageData` of src/lib.rs. -/
structure TableBasedImageData where
  lzw_minimum_code_size : Nat
  image_data : DataSubBlocks
deriving DecidableEq, Repr

/-- `ImageDescriptor` of src/lib.rs. -/
structure ImageDescriptor where
  image_left_position : Nat
  image_top_position : Nat
  image_width : Nat
  image_height : Nat
  packed_fields : Nat
  local_color_table : Option ColorTable
  image_data : TableBasedImageData
  graphic_control_extension : Option GraphicControlExtension
deriving DecidableEq, Repr

/-- `ImageDescriptor::SEPARATOR`. -/
def ImageDescriptor.SEPARATOR : Nat := 0x2c

/-- Local color table flag: `packed_fields >> 7`. -/
def ImageDescriptor.local_color_table_flag (i : ImageDescriptor) : Nat :=
  u8shr i.packed_fields 7

/-- Interlace flag: `(packed_fields << 1) >> 7` on u8. -/
def ImageDescriptor.interlace_flag (i : ImageDescriptor) : Nat :=
  u8shr (u8shl i.packed_fields 1) 7

/-- Sort flag: `(packed_fields << 2) >> 7` on u8. -/
def ImageDescriptor.sort_flag (i : ImageDescriptor) : Nat :=
  u8shr (u8shl i.packed_fields 2) 7

/-- Local color table size exponent: `(packed_fields << 5) >> 5` on u8. -/
def ImageDescriptor.local_color_table_size (i : ImageDescriptor) : Nat :=
  u8shr (u8shl i.packed_fields 5) 5

/-- `ExtensionBlock` of src/lib.rs. -/
inductive ExtensionBlock where
  | GraphicControl (g : GraphicControlExtension)
  | Comment (c : CommentExtension)
  | PlainText (p : PlainTextExtension)
  | Application (a : ApplicationExtension)
deriving DecidableEq, Repr

/-- `ExtensionBlock::INTRODUCER`. -/
def ExtensionBlock.INTRODUCER : Nat := 0x21

/-- `GraphicRenderingBlock` of src/lib.rs. -/
inductive GraphicRenderingBlock where
  | PlainText (p : PlainTextExtension)
  | Image (i : ImageDescriptor)
deriving DecidableEq, Repr

/-- `Version` of src/lib.rs. -/
inductive Version where
  | V87a
  | V89a
deriving DecidableEq, Repr

/-- `GifData` of src/lib.rs: the decoded document. -/
structure GifData where
  version : Version
  logical_screen_descriptor : LogicalScreenDescriptor
  application_extensions : List ApplicationExtension
  comment_extensions : List CommentExtension
  graphic_rendering_blocks : List GraphicRenderingBlock
deriving DecidableEq, Repr

/-- `SIGNATURE`: the bytes of `b"GIF"`. -/
def SIGNATURE : List Nat := [0x47, 0x49, 0x46]

/-- `TRAILER`. -/
def TRAILER : Nat := 0x3b

/-- The decoder's failure modes.  The Rust source reports structural errors
through `anyhow` messages and aborts on out-of-bounds indexing with a panic;
both are error values here, each carrying the byte offsets/values the source
message carries. -/
inductive DecodeError where
  | outOfBounds (offset : Nat)
  | invalidSignature (offset expected received : Nat)
  | invalidVersion (offset : Nat)
  | invalidExtensionLabel (label offset : Nat)
  | invalidBlockSize (offset expected got : Nat)
  | invalidBlockTerminator (offset expected got : Nat)
  | unknownByte (b offset : Nat)
  | fuelExhausted (offset : Nat)
deriving DecidableEq, Repr

/-- Read one byte at the cursor (`bytes[cx.offset]`; a panic on an empty
remainder becomes `outOfBounds`).  Returns the byte and the remaining suffix. -/
def readU8 (rem : List Nat) (offset : Nat) : Except DecodeError (Nat × List Nat) :=
  match rem with
  | [] => .error (.outOfBounds offset)
  | b :: rest => .ok (b, rest)

/-- Read a big-endian u16 at the cursor
(`((bytes[o] as u16) << 8) | bytes[o+1] as u16`). -/
def readU16 (rem : List Nat) (offset : Nat) : Except DecodeError (Nat × List Nat) :=
  match rem with
  | b0 :: b1 :: rest => .ok (u16of b0 b1, rest)
  | [_] => .error (.outOfBounds (offset + 1))
  | [] => .error (.outOfBounds offset)

/-- Read an `n`-byte slice at the cursor (`&bytes[o .. o + n]`; a panic when the
buffer is too short becomes `outOfBounds`). -/
def readSlice (rem : List Nat) (offset n : Nat) : Except DecodeError (List Nat × List Nat) :=
  if n ≤ rem.length then .ok (rem.take n, rem.drop n) else .error (.outOfBounds offset)

/-- `Version::decode` of src/decoder.rs: match the 3-byte slice at the cursor
against `b"87a"` / `b"89a"` and advance by 3. -/
def Version.decode (rem : List Nat) (cx : Context) :
    Except DecodeError (Version × List Nat × Context) :=
  match readSlice rem cx.offset 3 with
  | .error e => .error e
  | .ok (s, rest) =>
    if s = [0x38, 0x37, 0x61] then .ok (Version.V87a, rest, { cx with offset := cx.offset + 3 })
    else if s = [0x38, 0x39, 0x61] then
      .ok (Version.V89a, rest, { cx with offset := cx.offset + 3 })
    else .error (.invalidVersion cx.offset)

/-- `LogicalScreenDescriptor::decode` of src/decoder.rs: seven fixed bytes, then
the global color table (of `3 * 2 ^ (size_exponent + 1)` bytes) when the packed
flag bit is set. -/
def LogicalScreenDescriptor.decode (rem : List Nat) (cx : Context) :
    Except DecodeError (LogicalScreenDescriptor × List Nat × Context) :=
  match readU16 rem cx.offset with
  | .error e => .error e
  | .ok (logical_screen_width, rem1) =>
    match readU16 rem1 (cx.offset + 2) with
    | .error e => .error e
    | .ok (logical_screen_height, rem2) =>
      match readU8 rem2 (cx.offset + 4) with
      | .error e => .error e
      | .ok (packed_fields, rem3) =>
        match readU8 rem3 (cx.offset + 5) with
        | .error e => .error e
        | .ok (background_color_index, rem4) =>
          match readU8 rem4 (cx.offset + 6) with
          | .error e => .error e
          | .ok (pixel_aspect_ratio, rem5) =>
            let s : LogicalScreenDescriptor :=
              { logical_screen_width, logical_screen_height, packed_fields,
                background_color_index, pixel_aspect_ratio, global_color_table := none }
            if s.global_color_table_flag = 1 then
              let global_color_table_size := 3 * 2 ^ (s.global_color_table_size + 1)
              match readSlice rem5 (cx.offset + 7) global_color_table_size with
              | .error e => .error e
              | .ok (pixels, rem6) =>
                .ok ({ s with global_color_table := some { pixels } }, rem6,
                  { cx with offset := cx.offset + 7 + global_color_table_size })
            else
              .ok (s, rem5, { cx with offset := cx.offset + 7 })

/-- `DataSubBlock::decode` of src/decoder.rs: a length byte, then that many data
bytes; a zero length byte is the chain terminator and yields `none`. -/
def DataSubBlock.decode (rem : List Nat) (cx : Context) :
    Except DecodeError (Option DataSubBlock × List Nat × Context) :=
  match rem with
  | [] => .error (.outOfBounds cx.offset)
  | block_size :: rest =>
    if block_size = DataSubBlock.BLOCK_TERMINATOR then
      .ok (none, rest, { cx with offset := cx.offset + 1 })
    else if block_size ≤ rest.length then
      .ok (some { block_size, data := rest.take block_size }, rest.drop block_size,
        { cx with offset := cx.offset + 1 + block_size })
    else .error (.outOfBounds (cx.offset + 1))

/-- The loop body of `DataSubBlocks::decode`, with explicit fuel (each
iteration consumes at least one byte, so `remaining.length + 1` fuel always
suffices). -/
def DataSubBlocks.decodeFuel :
    Nat → List Nat → Context → List DataSubBlock →
    Except DecodeError (DataSubBlocks × List Nat × Context)
  | 0, _, cx, _ => .error (.fuelExhausted cx.offset)
  | fuel + 1, rem, cx, acc =>
    match DataSubBlock.decode rem cx with
    | .error e => .error e
    | .ok (none, rem2, cx2) => .ok ({ blocks := acc }, rem2, cx2)
    | .ok (some block, rem2, cx2) => DataSubBlocks.decodeFuel fuel rem2 cx2 (acc ++ [block])

/-- `DataSubBlocks::decode` of src/decoder.rs: collect chunks until the zero
terminator. -/
def DataSubBlocks.decode (rem : List Nat) (cx : Context) :
    Except DecodeError (DataSubBlocks × List Nat × Context) :=
  DataSubBlocks.decodeFuel (rem.length + 1) rem cx []

/-- `ApplicationExtension::decode` of src/decoder.rs: block-size byte (must be
11), 8-byte identifier, 3-byte authentication code, then the data chain. -/
def ApplicationExtension.decode (rem : List Nat) (cx : Context) :
    Except DecodeError (ApplicationExtension × List Nat × Context) :=
  match readU8 rem cx.offset with
  | .error e => .error e
  | .ok (block_size, rem1) =>
    if block_size ≠ ApplicationExtension.BLOCK_SIZE then
      .error (.invalidBlockSize cx.offset ApplicationExtension.BLOCK_SIZE block_size)
    else
      match readSlice rem1 (cx.offset + 1) 8 with
      | .error e => .error e
      | .ok (identifier, rem2) =>
        match readSlice rem2 (cx.offset + 9) 3 with
        | .error e => .error e
        | .ok (authentication_code, rem3) =>
          match DataSubBlocks.decode rem3 { cx with offset := cx.offset + 12 } with
          | .error e => .error e
          | .ok (data, rem4, cx4) =>
            .ok ({ identifier, authentication_code, data }, rem4, cx4)

/-- `PlainTextExtension::decode` of src/decoder.rs: block-size byte (must be
12), four big-endian u16 grid fields, four single-byte fields, the data chain,
then `take()` of the pending graphic-control modifier. -/
def PlainTextExtension.decode (rem : List Nat) (cx : Context) :
    Except DecodeError (PlainTextExtension × List Nat × Context) :=
  match readU8 rem cx.offset with
  | .error e => .error e
  | .ok (block_size, rem1) =>
    if block_size ≠ PlainTextExtension.BLOCK_SIZE then
      .error (.invalidBlockSize cx.offset PlainTextExtension.BLOCK_SIZE block_size)
    else
      match readU16 rem1 (cx.offset + 1) with
      | .error e => .error e
      | .ok (text_grid_left_position, rem2) =>
        match readU16 rem2 (cx.offset + 3) with
        | .error e => .error e
        | .ok (text_grid_top_position, rem3) =>
          match readU16 rem3 (cx.offset + 5) with
          | .error e => .error e
          | .ok (text_grid_width, rem4) =>
            match readU16 rem4 (cx.offset + 7) with
            | .error e => .error e
            | .ok (text_grid_height, rem5) =>
              match readU8 rem5 (cx.offset + 9) with
              | .error e => .error e
              | .ok (character_cell_width, rem6) =>
                match readU8 rem6 (cx.offset + 10) with
                | .error e => .error e
                | .ok (character_cell_height, rem7) =>
                  match readU8 rem7 (cx.offset + 11) with
                  | .error e => .error e
                  | .ok (text_foreground_color_index, rem8) =>
                    match readU8 rem8 (cx.offset + 12) with
                    | .error e => .error e
                    | .ok (text_background_color_index, rem9) =>
                      match DataSubBlocks.decode rem9 { cx with offset := cx.offset + 13 } with
                      | .error e => .error e
                      | .ok (data, rem10, cx10) =>
                        .ok ({ text_grid_left_position, text_grid_top_position,
                               text_grid_width, text_grid_height, character_cell_width,
                               character_cell_height, text_foreground_color_index,
                               text_background_color_index, data,
                               graphic_control_extension := cx10.graphic_control_extension },
                          rem10, { cx10 with graphic_control_extension := none })

/-- `GraphicControlExtension::decode` of src/decoder.rs: block-size byte (must
be 4), packed fields, big-endian delay time, transparent color index, then the
mandatory zero block terminator. -/
def GraphicControlExtension.decode (rem : List Nat) (cx : Context) :
    Except DecodeError (GraphicControlExtension × List Nat × Context) :=
  match readU8 rem cx.offset with
  | .error e => .error e
  | .ok (block_size, rem1) =>
    if block_size ≠ GraphicControlExtension.BLOCK_SIZE then
      .error (.invalidBlockSize cx.offset GraphicControlExtension.BLOCK_SIZE block_size)
    else
      match readU8 rem1 (cx.offset + 1) with
      | .error e => .error e
      | .ok (packed_fields, rem2) =>
        match readU16 rem2 (cx.offset + 2) with
        | .error e => .error e
        | .ok (delay_time, rem3) =>
          match readU8 rem3 (cx.offset + 4) with
          | .error e => .error e
          | .ok (transparent_color_index, rem4) =>
            match readU8 rem4 (cx.offset + 5) with
            | .error e => .error e
            | .ok (terminator, rem5) =>
              if terminator ≠ DataSubBlock.BLOCK_TERMINATOR then
                .error (.invalidBlockTerminator (cx.offset + 5)
                  DataSubBlock.BLOCK_TERMINATOR terminator)
              else
                .ok ({ packed_fields, delay_time, transparent_color_index }, rem5,
                  { cx with offset := cx.offset + 6 })

/-- `CommentExtension::decode` of src/decoder.rs: just the data chain. -/
def CommentExtension.decode (rem : List Nat) (cx : Context) :
    Except DecodeError (CommentExtension × List Nat × Context) :=
  match DataSubBlocks.decode rem cx with
  | .error e => .error e
  | .ok (data, rem1, cx1) => .ok ({ data }, rem1, cx1)

/-- `ExtensionBlock::decode` of src/decoder.rs: dispatch on the label byte after
the introducer.  With `discard_comments = true` a comment label yields `Ok
(none)` without consuming the comment's chain bytes (exactly as the source
does).  A graphic-control result is routed to the pending slot by the caller. -/
def ExtensionBlock.decode (rem : List Nat) (cx : Context) (discard_comments : Bool) :
    Except DecodeError (Option ExtensionBlock × List Nat × Context) :=
  match readU8 rem cx.offset with
  | .error e => .error e
  | .ok (label, rem1) =>
    let cx1 : Context := { cx with offset := cx.offset + 1 }
    if label = GraphicControlExtension.LABEL then
      match GraphicControlExtension.decode rem1 cx1 with
      | .error e => .error e
      | .ok (g, rem2, cx2) => .ok (some (ExtensionBlock.GraphicControl g), rem2, cx2)
    else if label = CommentExtension.LABEL then
      if discard_comments then
        .ok (none, rem1, cx1)
      else
        match CommentExtension.decode rem1 cx1 with
        | .error e => .error e
        | .ok (c, rem2, cx2) => .ok (some (ExtensionBlock.Comment c), rem2, cx2)
    else if label = PlainTextExtension.LABEL then
      match PlainTextExtension.decode rem1 cx1 with
      | .error e => .error e
      | .ok (p, rem2, cx2) => .ok (some (ExtensionBlock.PlainText p), rem2, cx2)
    else if label = ApplicationExtension.LABEL then
      match ApplicationExtension.decode rem1 cx1 with
      | .error e => .error e
      | .ok (a, rem2, cx2) => .ok (some (ExtensionBlock.Application a), rem2, cx2)
    else
      .error (.invalidExtensionLabel label (cx.offset + 1))

/-- `TableBasedImageData::decode` of src/decoder.rs: the LZW minimum code size
byte, then the pixel-data chain. -/
def TableBasedImageData.decode (rem : List Nat) (cx : Context) :
    Except DecodeError (TableBasedImageData × List Nat × Context) :=
  match readU8 rem cx.offset with
  | .error e => .error e
  | .ok (lzw_minimum_code_size, rem1) =>
    match DataSubBlocks.decode rem1 { cx with offset := cx.offset + 1 } with
    | .error e => .error e
    | .ok (image_data, rem2, cx2) => .ok ({ lzw_minimum_code_size, image_data }, rem2, cx2)

/-- `ImageDescriptor::decode` of src/decoder.rs: four big-endian u16 geometry
fields, packed fields, the optional local color table, the image data, then
`take()` of the pending graphic-control modifier. -/
def ImageDescriptor.decode (rem : List Nat) (cx : Context) :
    Except DecodeError (ImageDescriptor × List Nat × Context) :=
  match readU16 rem cx.offset with
  | .error e => .error e
  | .ok (image_left_position, rem1) =>
    match readU16 rem1 (cx.offset + 2) with
    | .error e => .error e
    | .ok (image_top_position, rem2) =>
      match readU16 rem2 (cx.offset + 4) with
      | .error e => .error e
      | .ok (image_width, rem3) =>
        match readU16 rem3 (cx.offset + 6) with
        | .error e => .error e
        | .ok (image_height, rem4) =>
          match readU8 rem4 (cx.offset + 8) with
          | .error e => .error e
          | .ok (packed_fields, rem5) =>
            let flag := u8shr packed_fields 7
            let readTable :
                Except DecodeError (Option ColorTable × List Nat × Nat) :=
              if flag = 1 then
                let sizeExp := u8shr (u8shl packed_fields 5) 5
                let tableLen := 3 * 2 ^ (sizeExp + 1)
                match readSlice rem5 (cx.offset + 9) tableLen with
                | .error e => .error e
                | .ok (pixels, rem6) => .ok (some { pixels }, rem6, cx.offset + 9 + tableLen)
              else .ok (none, rem5, cx.offset + 9)
            match readTable with
            | .error e => .error e
            | .ok (local_color_table, rem6, off6) =>
              match TableBasedImageData.decode rem6 { cx with offset := off6 } with
              | .error e => .error e
              | .ok (image_data, rem7, cx7) =>
                .ok ({ image_left_position, image_top_position, image_width, image_height,
                       packed_fields, local_color_table, image_data,
                       graphic_control_extension := cx7.graphic_control_extension },
                  rem7, { cx7 with graphic_control_extension := none })

/-- The top-level block loop of `decode` in src/decoder.rs, with explicit fuel
(each iteration consumes at least the marker byte, so `remaining.length + 1`
fuel always suffices): dispatch on the byte at the cursor — `0x21` extension
introducer, `0x2c` image separator, `0x3b` trailer, anything else an
unknown-byte error. -/
def decodeLoop :
    Nat → List Nat → Context → Bool → LogicalScreenDescriptor →
    List ApplicationExtension → List GraphicRenderingBlock → List CommentExtension →
    Except DecodeError
      (List ApplicationExtension × List GraphicRenderingBlock × List CommentExtension)
  | 0, _, cx, _, _, _, _, _ => .error (.fuelExhausted cx.offset)
  | fuel + 1, rem, cx, discard_comments, lsd, apps, blocks, comments =>
    match rem with
    | [] => .error (.outOfBounds cx.offset)
    | b :: rem1 =>
      if b = ExtensionBlock.INTRODUCER then
        match ExtensionBlock.decode rem1 { cx with offset := cx.offset + 1 } discard_comments with
        | .error e => .error e
        | .ok (none, rem2, cx2) =>
          decodeLoop fuel rem2 cx2 discard_comments lsd apps blocks comments
        | .ok (some ext, rem2, cx2) =>
          match ext with
          | ExtensionBlock.GraphicControl g =>
            decodeLoop fuel rem2 { cx2 with graphic_control_extension := some g }
              discard_comments lsd apps blocks comments
          | ExtensionBlock.Application a =>
            decodeLoop fuel rem2 cx2 discard_comments lsd (apps ++ [a]) blocks comments
          | ExtensionBlock.PlainText p =>
            if lsd.global_color_table.isNone then
              decodeLoop fuel rem2 cx2 discard_comments lsd apps blocks comments
            else
              decodeLoop fuel rem2 cx2 discard_comments lsd apps
                (blocks ++ [GraphicRenderingBlock.PlainText p]) comments
          | ExtensionBlock.Comment c =>
            decodeLoop fuel rem2 cx2 discard_comments lsd apps blocks (comments ++ [c])
      else if b = ImageDescriptor.SEPARATOR then
        match ImageDescriptor.decode rem1 { cx with offset := cx.offset + 1 } with
        | .error e => .error e
        | .ok (img, rem2, cx2) =>
          decodeLoop fuel rem2 cx2 discard_comments lsd apps
            (blocks ++ [GraphicRenderingBlock.Image img]) comments
      else if b = TRAILER then
        .ok (apps, blocks, comments)
      else
        .error (.unknownByte b cx.offset)

/-- `decode` of src/decoder.rs: check the `GIF` signature byte by byte, decode
the version and the logical screen descriptor, then run the block loop until
the trailer. -/
def decode (bytes : List Nat) (discard_comments : Bool) : Except DecodeError GifData :=
  match readU8 bytes 0 with
  | .error e => .error e
  | .ok (b0, rem1) =>
    if b0 ≠ 0x47 then .error (.invalidSignature 0 0x47 b0)
    else
      match readU8 rem1 1 with
      | .error e => .error e
      | .ok (b1, rem2) =>
        if b1 ≠ 0x49 then .error (.invalidSignature 1 0x49 b1)
        else
          match readU8 rem2 2 with
          | .error e => .error e
          | .ok (b2, rem3) =>
            if b2 ≠ 0x46 then .error (.invalidSignature 2 0x46 b2)
            else
              match Version.decode rem3 { offset := 3, graphic_control_extension := none } with
              | .error e => .error e
              | .ok (version, rem4, cx4) =>
                match LogicalScreenDescriptor.decode rem4 cx4 with
                | .error e => .error e
                | .ok (logical_screen_descriptor, rem5, cx5) =>
                  match decodeLoop (rem5.length + 1) rem5 cx5 discard_comments
                      logical_screen_descriptor [] [] [] with
                  | .error e => .error e
                  | .ok (application_extensions, graphic_rendering_blocks, comment_extensions) =>
                    .ok { version, logical_screen_descriptor, application_extensions,
                          comment_extensions, graphic_rendering_blocks }

/-- `Version::encode` of src/encoder.rs. -/
def Version.encode : Version → List Nat
  | Version.V87a => [0x38, 0x37, 0x61]
  | Version.V89a => [0x38, 0x39, 0x61]

/-- `LogicalScreenDescriptor::encode` of src/encoder.rs: the seven fixed bytes,
then the global color table bytes when present. -/
def LogicalScreenDescriptor.encode (s : LogicalScreenDescriptor) : List Nat :=
  encodeU16 s.logical_screen_width ++ encodeU16 s.logical_screen_height ++
    [s.packed_fields, s.background_color_index, s.pixel_aspect_ratio] ++
    (match s.global_color_table with
     | some t => t.pixels
     | none => [])

/-- `DataSubBlock::encode` of src/encoder.rs: the length byte then the data. -/
def DataSubBlock.encode (b : DataSubBlock) : List Nat :=
  b.block_size :: b.data

/-- `DataSubBlocks::encode` of src/encoder.rs: each chunk in order, then one
zero terminator byte. -/
def DataSubBlocks.encode (s : DataSubBlocks) : List Nat :=
  (s.blocks.map DataSubBlock.encode).flatten ++ [DataSubBlock.BLOCK_TERMINATOR]

/-- `GraphicControlExtenson::encode` counterpart of src/encoder.rs: introducer,
label, block size, packed fields, big-endian delay time, transparent color
index, block terminator. -/
def GraphicControlExtension.encode (g : GraphicControlExtension) : List Nat :=
  [ExtensionBlock.INTRODUCER, GraphicControlExtension.LABEL,
   GraphicControlExtension.BLOCK_SIZE, g.packed_fields] ++
    encodeU16 g.delay_time ++ [g.transparent_color_index, DataSubBlock.BLOCK_TERMINATOR]

/-- `ApplicationExtension::encode` of src/encoder.rs. -/
def ApplicationExtension.encode (a : ApplicationExtension) : List Nat :=
  [ExtensionBlock.INTRODUCER, ApplicationExtension.LABEL, ApplicationExtension.BLOCK_SIZE] ++
    a.identifier ++ a.authentication_code ++ a.data.encode

/-- `CommentExtension::encode` of src/encoder.rs. -/
def CommentExtension.encode (c : CommentExtension) : List Nat :=
  [ExtensionBlock.INTRODUCER, CommentExtension.LABEL] ++ c.data.encode

/-- `PlainTextExtension::encode` of src/encoder.rs.  Note the source emits an
attached graphic-control extension after the introducer and label, before the
block-size byte. -/
def PlainTextExtension.encode (p : PlainTextExtension) : List Nat :=
  [ExtensionBlock.INTRODUCER, PlainTextExtension.LABEL] ++
    (match p.graphic_control_extension with
     | some g => g.encode
     | none => []) ++
    [PlainTextExtension.BLOCK_SIZE] ++
    encodeU16 p.text_grid_left_position ++ encodeU16 p.text_grid_top_position ++
    encodeU16 p.text_grid_width ++ encodeU16 p.text_grid_height ++
    [p.character_cell_width, p.character_cell_height,
     p.text_foreground_color_index, p.text_background_color_index] ++
    p.data.encode

/-- `TableBasedImageData::encode` of src/encoder.rs. -/
def TableBasedImageData.encode (t : TableBasedImageData) : List Nat :=
  t.lzw_minimum_code_size :: t.image_data.encode

/-- `ImageDescriptor::encode` of src/encoder.rs: an attached graphic-control
extension first (dropped when the target version is 87a), then the separator,
geometry, packed fields, optional local color table and the image data. -/
def ImageDescriptor.encode (i : ImageDescriptor) (version : Version) : List Nat :=
  (match i.graphic_control_extension with
   | some g => if version = Version.V87a then [] else g.encode
   | none => []) ++
    [ImageDescriptor.SEPARATOR] ++
    encodeU16 i.image_left_position ++ encodeU16 i.image_top_position ++
    encodeU16 i.image_width ++ encodeU16 i.image_height ++
    [i.packed_fields] ++
    (match i.local_color_table with
     | some t => t.pixels
     | none => []) ++
    i.image_data.encode

/-- `GraphicRenderingBlock::encode` of src/encoder.rs. -/
def GraphicRenderingBlock.encode (b : GraphicRenderingBlock) (version : Version) : List Nat :=
  match b with
  | GraphicRenderingBlock.PlainText p => p.encode
  | GraphicRenderingBlock.Image i => i.encode version

/-- `GifData::encode` of src/encoder.rs: signature, version, screen descriptor,
then application extensions (dropped for 87a), comment extensions (dropped for
87a or when `discard_comments`), rendering blocks (plain-text blocks dropped
for 87a), and finally the trailer. -/
def GifData.encode (d : GifData) (version : Version) (discard_comments : Bool) : List Nat :=
  SIGNATURE ++ version.encode ++ d.logical_screen_descriptor.encode ++
    (if version = Version.V87a then []
     else (d.application_extensions.map ApplicationExtension.encode).flatten) ++
    (if !discard_comments && version ≠ Version.V87a then
      (d.comment_extensions.map CommentExtension.encode).flatten
     else []) ++
    (d.graphic_rendering_blocks.map (fun block =>
      match block with
      | GraphicRenderingBlock.Image _ => block.encode version
      | GraphicRenderingBlock.PlainText _ =>
        if version = Version.V87a then [] else block.encode version)).flatten ++
    [TRAILER]

/-- A minimal valid header: signature, version 89a, and a 1-by-1 logical screen
descriptor with no global color table (13 bytes). -/
def headerNoGct : List Nat := [0x47, 0x49, 0x46, 0x38, 0x39, 0x61, 0, 1, 0, 1, 0, 0, 0]

/-- The logical screen descriptor decoded from `headerNoGct`. -/
def lsdMinimal : LogicalScreenDescriptor :=
  { logical_screen_width := 1, logical_screen_height := 1, packed_fields := 0,
    background_color_index := 0, pixel_aspect_ratio := 0, global_color_table := none }

/-- A small concrete application extension. -/
def appExt0 : ApplicationExtension :=
  { identifier := [65, 66, 67, 68, 69, 70, 71, 72], authentication_code := [97, 98, 99],
    data := { blocks := [] } }

/-- A small concrete comment extension. -/
def comExt0 : CommentExtension := { data := { blocks := [] } }

/-- A small concrete plain-text extension. -/
def ptExt0 : PlainTextExtension :=
  { text_grid_left_position := 0, text_grid_top_position := 0, text_grid_width := 0,
    text_grid_height := 0, character_cell_width := 0, character_cell_height := 0,
    text_foreground_color_index := 0, text_background_color_index := 0,
    data := { blocks := [] }, graphic_control_extension := none }

/-- C8: decoding the 6-byte input consisting of only the signature `GIF` and the
version `87a` fails with an out-of-bounds condition at offset 6 (the screen
descriptor decoder reading past the buffer end), reported as a fatal decode
error value, not a crash of the embedding. -/
theorem c8_truncated_header_out_of_bounds :
    decode [0x47, 0x49, 0x46, 0x38, 0x37, 0x61] false = .error (DecodeError.outOfBounds 6) := rfl

/-- C2 (divergence witness): on a stream holding one comment extension (one
1-byte chunk) before the trailer, decoding with `discard_comments = true` does
NOT consume the comment's data-sub-block chain: the cursor is left at the
chain's first length byte (offset 15), which the top-level loop then rejects as
an unknown stream byte.  With `discard_comments = false` the same stream
decodes successfully and stores the comment. -/
theorem c2_comment_discard_divergence :
    decode (headerNoGct ++ [0x21, 0xfe, 0x01, 0x41, 0x00, 0x3b]) true
      = .error (DecodeError.unknownByte 0x01 15) ∧
    decode (headerNoGct ++ [0x21, 0xfe, 0x01, 0x41, 0x00, 0x3b]) false
      = .ok { version := Version.V89a, logical_screen_descriptor := lsdMinimal,
              application_extensions := [],
              comment_extensions := [{ data := { blocks := [{ block_size := 1, data := [0x41] }] } }],
              graphic_rendering_blocks := [] } := ⟨rfl, rfl⟩

/-- C3: encoding a document whose extension lists are one application
extension, one comment extension, and one plain-text rendering block, for
target version 87a, emits none of those three blocks: the output is exactly
signature, version string, screen descriptor and trailer (for either value of
`discard_comments`). -/
theorem c3_version_filtering (d : GifData) (a : ApplicationExtension) (c : CommentExtension)
    (p : PlainTextExtension) (dc : Bool)
    (ha : d.application_extensions = [a]) (hc : d.comment_extensions = [c])
    (hb : d.graphic_rendering_blocks = [GraphicRenderingBlock.PlainText p]) :
    d.encode Version.V87a dc =
      SIGNATURE ++ Version.encode Version.V87a ++
        d.logical_screen_descriptor.encode ++ [TRAILER] := by
  simp [GifData.encode, ha, hc, hb, GraphicRenderingBlock.encode]

/-- Witness for C3 at a concrete document. -/
theorem c3_version_filtering_witness :
    GifData.encode
        { version := Version.V89a, logical_screen_descriptor := lsdMinimal,
          application_extensions := [appExt0], comment_extensions := [comExt0],
          graphic_rendering_blocks := [GraphicRenderingBlock.PlainText ptExt0] }
        Version.V87a false
      = SIGNATURE ++ Version.encode Version.V87a ++ lsdMinimal.encode ++ [TRAILER] :=
  c3_version_filtering _ appExt0 comExt0 ptExt0 false rfl rfl rfl

/-- C4: a stream `[GraphicControl extension][Image block][Trailer]` decodes to a
document with exactly one rendering block — the image — whose
`graphic_control_extension` field carries the decoded graphic-control fields
(for arbitrary packed-fields, delay and transparent-index bytes); and a stream
`[GraphicControl extension][Trailer]` with no following rendering block decodes
successfully with the modifier absent from the document. -/
theorem c4_graphic_control_attachment (p dh dl t : Nat) :
    decode (headerNoGct ++ ([0x21, 0xf9, 4, p, dh, dl, t, 0] ++
        (0x2c :: List.replicate 11 0 ++ [0x3b]))) false
      = .ok { version := Version.V89a, logical_screen_descriptor := lsdMinimal,
              application_extensions := [], comment_extensions := [],
              graphic_rendering_blocks := [GraphicRenderingBlock.Image
                { image_left_position := 0, image_top_position := 0, image_width := 0,
                  image_height := 0, packed_fields := 0, local_color_table := none,
                  image_data := { lzw_minimum_code_size := 0, image_data := { blocks := [] } },
                  graphic_control_extension :=
                    some { packed_fields := p, delay_time := u16of dh dl,
                           transparent_color_index := t } }] } ∧
    decode (headerNoGct ++ [0x21, 0xf9, 4, p, dh, dl, t, 0, 0x3b]) false
      = .ok { version := Version.V89a, logical_screen_descriptor := lsdMinimal,
              application_extensions := [], comment_extensions := [],
              graphic_rendering_blocks := [] } := ⟨rfl, rfl⟩

/-- C9: the context's pending slot is a single `Option` (at most one pending
modifier); when two graphic-control extensions are decoded back to back before
a rendering block, the second silently overwrites the first: the image that
follows carries exactly the second one's fields, and the first appears nowhere
in the document. -/
theorem c9_pending_overwrite (p1 dh1 dl1 t1 p2 dh2 dl2 t2 : Nat) :
    decode (headerNoGct ++ ([0x21, 0xf9, 4, p1, dh1, dl1, t1, 0] ++
        ([0x21, 0xf9, 4, p2, dh2, dl2, t2, 0] ++
          (0x2c :: List.replicate 11 0 ++ [0x3b])))) false
      = .ok { version := Version.V89a, logical_screen_descriptor := lsdMinimal,
              application_extensions := [], comment_extensions := [],
              graphic_rendering_blocks := [GraphicRenderingBlock.Image
                { image_left_position := 0, image_top_position := 0, image_width := 0,
                  image_height := 0, packed_fields := 0, local_color_table := none,
                  image_data := { lzw_minimum_code_size := 0, image_data := { blocks := [] } },
                  graphic_control_extension :=
                    some { packed_fields := p2, delay_time := u16of dh2 dl2,
                           transparent_color_index := t2 } }] } := rfl

/-- C10: when a plain-text extension is decoded while the screen descriptor has
no global palette, the pending graphic-control modifier is consumed by the
plain-text decode before the block is discarded: a later image in the same
stream decodes with no attached modifier, and the plain-text block itself is
absent from the document. -/
theorem c10_discarded_plaintext_consumes_pending (p dh dl t : Nat) :
    decode (headerNoGct ++ ([0x21, 0xf9, 4, p, dh, dl, t, 0] ++
        (([0x21, 0x01, 12] ++ List.replicate 12 0 ++ [0]) ++
          (0x2c :: List.replicate 11 0 ++ [0x3b])))) false
      = .ok { version := Version.V89a, logical_screen_descriptor := lsdMinimal,
              application_extensions := [], comment_extensions := [],
              graphic_rendering_blocks := [GraphicRenderingBlock.Image
                { image_left_position := 0, image_top_position := 0, image_width := 0,
                  image_height := 0, packed_fields := 0, local_color_table := none,
                  image_data := { lzw_minimum_code_size := 0, image_data := { blocks := [] } },
                  graphic_control_extension := none }] } := rfl

/-- C6: the top-level decode loop, evaluated on the byte at the current offset:
`0x21` is consumed and the extension dispatcher runs on the rest (its failure
fails the whole loop, and a decoded application extension is appended); `0x2c`
is consumed and an image descriptor is decoded and appended to the rendering
blocks (its failure fails the whole loop); `0x3b` stops with success; every
other byte value fails the decode with an unknown-byte error carrying that
byte and its offset. -/
theorem c6_loop_dispatch (fuel : Nat) (rem1 : List Nat) (cx : Context) (dc : Bool)
    (lsd : LogicalScreenDescriptor) (apps : List ApplicationExtension)
    (blocks : List GraphicRenderingBlock) (comments : List CommentExtension) (b : Nat) :
    (b = ExtensionBlock.INTRODUCER →
      (∀ e, ExtensionBlock.decode rem1 { cx with offset := cx.offset + 1 } dc = .error e →
        decodeLoop (fuel + 1) (b :: rem1) cx dc lsd apps blocks comments = .error e) ∧
      (∀ a rem2 cx2,
        ExtensionBlock.decode rem1 { cx with offset := cx.offset + 1 } dc
          = .ok (some (ExtensionBlock.Application a), rem2, cx2) →
        decodeLoop (fuel + 1) (b :: rem1) cx dc lsd apps blocks comments
          = decodeLoop fuel rem2 cx2 dc lsd (apps ++ [a]) blocks comments)) ∧
    (b = ImageDescriptor.SEPARATOR →
      (∀ e, ImageDescriptor.decode rem1 { cx with offset := cx.offset + 1 } = .error e →
        decodeLoop (fuel + 1) (b :: rem1) cx dc lsd apps blocks comments = .error e) ∧
      (∀ img rem2 cx2,
        ImageDescriptor.decode rem1 { cx with offset := cx.offset + 1 } = .ok (img, rem2, cx2) →
        decodeLoop (fuel + 1) (b :: rem1) cx dc lsd apps blocks comments
          = decodeLoop fuel rem2 cx2 dc lsd apps
              (blocks ++ [GraphicRenderingBlock.Image img]) comments)) ∧
    (b = TRAILER →
      decodeLoop (fuel + 1) (b :: rem1) cx dc lsd apps blocks comments
        = .ok (apps, blocks, comments)) ∧
    (b ≠ ExtensionBlock.INTRODUCER → b ≠ ImageDescriptor.SEPARATOR → b ≠ TRAILER →
      decodeLoop (fuel + 1) (b :: rem1) cx dc lsd apps blocks comments
        = .error (.unknownByte b cx.offset)) := by
  refine ⟨fun hb => ?_, fun hb => ?_, fun hb => ?_, fun h1 h2 h3 => ?_⟩
  · subst hb
    constructor
    · intro e he
      simp [decodeLoop, he]
    · intro a rem2 cx2 he
      simp [decodeLoop, he]
  · subst hb
    constructor
    · intro e he
      simp [decodeLoop, ImageDescriptor.SEPARATOR, ExtensionBlock.INTRODUCER, he]
    · intro img rem2 cx2 he
      simp [decodeLoop, ImageDescriptor.SEPARATOR, ExtensionBlock.INTRODUCER, he]
  · subst hb
    simp [decodeLoop, TRAILER, ImageDescriptor.SEPARATOR, ExtensionBlock.INTRODUCER]
  · simp [decodeLoop, h1, h2, h3]

/-- Witness for C6 at the trailer byte. -/
theorem c6_loop_dispatch_witness :
    decodeLoop 1 [0x3b] { offset := 13, graphic_control_extension := none } false
        lsdMinimal [] [] [] = .ok ([], [], []) :=
  (c6_loop_dispatch 0 [] { offset := 13, graphic_control_extension := none } false
    lsdMinimal [] [] [] 0x3b).2.2.1 rfl

/-- C7: when the global-color-table flag bit of the packed byte is set and
enough bytes remain, the screen-descriptor decoder consumes exactly
`3 * 2 ^ (size_exponent + 1)` palette bytes (for every size exponent 0–7, the
exponent being the packed byte's low three bits), the decoded palette has
exactly that byte length, and for every pixel index inside the palette,
`get_pixel` returns precisely the 3-byte slice at byte offsets
`[3 * i, 3 * i + 3)` of the palette bytes. -/
theorem c7_palette_sizing (wh wl hh hl packed bg ar : Nat) (tl : List Nat) (cx : Context)
    (hflag : u8shr packed 7 = 1)
    (hlen : 3 * 2 ^ (u8shr (u8shl packed 5) 5 + 1) ≤ tl.length) :
    LogicalScreenDescriptor.decode (wh :: wl :: hh :: hl :: packed :: bg :: ar :: tl) cx
      = .ok ({ logical_screen_width := u16of wh wl, logical_screen_height := u16of hh hl,
               packed_fields := packed, background_color_index := bg,
               pixel_aspect_ratio := ar,
               global_color_table :=
                 some { pixels := tl.take (3 * 2 ^ (u8shr (u8shl packed 5) 5 + 1)) } },
          tl.drop (3 * 2 ^ (u8shr (u8shl packed 5) 5 + 1)),
          { cx with offset := cx.offset + 7 + 3 * 2 ^ (u8shr (u8shl packed 5) 5 + 1) })
    ∧ (tl.take (3 * 2 ^ (u8shr (u8shl packed 5) 5 + 1))).length
        = 3 * 2 ^ (u8shr (u8shl packed 5) 5 + 1)
    ∧ (∀ i, i < 2 ^ (u8shr (u8shl packed 5) 5 + 1) →
        ColorTable.get_pixel { pixels := tl.take (3 * 2 ^ (u8shr (u8shl packed 5) 5 + 1)) } i
          = some (((tl.take (3 * 2 ^ (u8shr (u8shl packed 5) 5 + 1))).drop (i * 3)).take 3)
        ∧ (((tl.take (3 * 2 ^ (u8shr (u8shl packed 5) 5 + 1))).drop (i * 3)).take 3).length
            = 3) := by
  have htake : (tl.take (3 * 2 ^ (u8shr (u8shl packed 5) 5 + 1))).length
      = 3 * 2 ^ (u8shr (u8shl packed 5) 5 + 1) := by
    rw [List.length_take]
    omega
  refine ⟨?_, htake, ?_⟩
  · unfold LogicalScreenDescriptor.decode
    simp only [readU16, readU8]
    have hflag2 : LogicalScreenDescriptor.global_color_table_flag
        { logical_screen_width := u16of wh wl, logical_screen_height := u16of hh hl,
          packed_fields := packed, background_color_index := bg,
          pixel_aspect_ratio := ar, global_color_table := none } = 1 := hflag
    rw [if_pos hflag2]
    have hsize : LogicalScreenDescriptor.global_color_table_size
        { logical_screen_width := u16of wh wl, logical_screen_height := u16of hh hl,
          packed_fields := packed, background_color_index := bg,
          pixel_aspect_ratio := ar, global_color_table := none }
        = u8shr (u8shl packed 5) 5 := rfl
    rw [hsize]
    unfold readSlice
    rw [if_pos hlen]
  · intro i hi
    have h3 : i * 3 + 3 ≤ 3 * 2 ^ (u8shr (u8shl packed 5) 5 + 1) := by omega
    constructor
    · unfold ColorTable.get_pixel
      rw [if_pos (by rw [htake]; omega)]
    · rw [List.length_take, List.length_drop, htake]
      omega

/-- Witness for C7: a set flag with size exponent 0 (palette of 6 bytes). -/
theorem c7_palette_sizing_witness :
    LogicalScreenDescriptor.decode
        (0 :: 1 :: 0 :: 1 :: 0x80 :: 0 :: 0 :: [10, 20, 30, 40, 50, 60])
        { offset := 6, graphic_control_extension := none }
      = .ok ({ logical_screen_width := 1, logical_screen_height := 1,
               packed_fields := 0x80, background_color_index := 0, pixel_aspect_ratio := 0,
               global_color_table := some { pixels := [10, 20, 30, 40, 50, 60] } },
          [], { offset := 19, graphic_control_extension := none })
    ∧ ColorTable.get_pixel { pixels := [10, 20, 30, 40, 50, 60] } 1 = some [40, 50, 60] := by
  have h := c7_palette_sizing 0 1 0 1 0x80 0 0 [10, 20, 30, 40, 50, 60]
    { offset := 6, graphic_control_extension := none } (by decide) (by decide)
  exact ⟨h.1, ((h.2.2 1 (by decide)).1 : _)⟩

/-- Decoding the encoding of one well-formed chunk succeeds, returns that
chunk, consumes exactly its bytes and leaves the rest. -/
theorem DataSubBlock.decode_encode_chunk (b : DataSubBlock) (rest : List Nat) (cx : Context)
    (h1 : b.block_size = b.data.length) (h2 : 0 < b.block_size) :
    DataSubBlock.decode (b.encode ++ rest) cx
      = .ok (some b, rest, { cx with offset := cx.offset + 1 + b.block_size }) := by
  obtain ⟨bs, data⟩ := b
  simp only at h1 h2
  unfold DataSubBlock.encode DataSubBlock.decode
  simp only [List.cons_append]
  rw [if_neg (by simp only [DataSubBlock.BLOCK_TERMINATOR]; omega),
    if_pos (by simp only [List.length_append]; omega)]
  rw [List.take_left' h1.symm, List.drop_left' h1.symm]

/-- Decoding the encoding of a chain of well-formed chunks accumulates exactly
those chunks and consumes exactly the encoded bytes plus the terminator. -/
theorem DataSubBlocks.decodeFuel_encode (blocks : List DataSubBlock) :
    ∀ (fuel : Nat) (acc : List DataSubBlock) (rest : List Nat) (cx : Context),
      (∀ b ∈ blocks, b.block_size = b.data.length ∧ 0 < b.block_size) →
      blocks.length + 1 ≤ fuel →
      DataSubBlocks.decodeFuel fuel
          ((blocks.map DataSubBlock.encode).flatten ++ ([0] ++ rest)) cx acc
        = .ok ({ blocks := acc ++ blocks }, rest,
            { cx with offset :=
                cx.offset + ((blocks.map DataSubBlock.encode).flatten.length + 1) }) := by
  induction blocks with
  | nil =>
    intro fuel acc rest cx hwf hfuel
    match fuel, hfuel with
    | fuel + 1, _ =>
      simp only [List.map_nil, List.flatten_nil, List.nil_append]
      unfold DataSubBlocks.decodeFuel DataSubBlock.decode
      simp [DataSubBlock.BLOCK_TERMINATOR]
  | cons b bs ih =>
    intro fuel acc rest cx hwf hfuel
    match fuel, hfuel with
    | fuel + 1, hfuel =>
      simp only [List.map_cons, List.flatten_cons, List.append_assoc]
      unfold DataSubBlocks.decodeFuel
      rw [DataSubBlock.decode_encode_chunk b _ cx (hwf b (by simp)).1 (hwf b (by simp)).2]
      dsimp only
      rw [ih fuel (acc ++ [b]) rest _ (fun x hx => hwf x (by simp [hx]))
        (by simp only [List.length_cons] at hfuel; omega)]
      have hbsize : b.block_size = b.data.length := (hwf b (by simp)).1
      simp only [List.append_assoc, List.singleton_append, List.map_cons, List.flatten_cons,
        List.length_append, DataSubBlock.encode, List.length_cons]
      have harith : cx.offset + 1 + b.block_size +
          ((List.map DataSubBlock.encode bs).flatten.length + 1)
          = cx.offset + (b.data.length + 1 +
              (List.map DataSubBlock.encode bs).flatten.length + 1) := by omega
      rw [harith]

/-- Every encoded chunk contributes at least one byte, so the flattened chunk
encodings are at least as long as the chunk list. -/
theorem encode_chain_length_ge (blocks : List DataSubBlock) :
    blocks.length ≤ ((blocks.map DataSubBlock.encode).flatten).length := by
  induction blocks with
  | nil => simp
  | cons b bs ih =>
    simp only [List.length_cons, List.map_cons, List.flatten_cons, List.length_append,
      DataSubBlock.encode]
    omega

/-- Decoding the encoding of a well-formed chain (each chunk's length byte
matching its data and nonzero) yields the chain back, leaving the rest. -/
theorem DataSubBlocks.decode_encode_chain (s : DataSubBlocks) (rest : List Nat) (cx : Context)
    (h : ∀ b ∈ s.blocks, b.block_size = b.data.length ∧ 0 < b.block_size) :
    DataSubBlocks.decode (s.encode ++ rest) cx
      = .ok (s, rest, { cx with offset := cx.offset + s.encode.length }) := by
  obtain ⟨blocks⟩ := s
  unfold DataSubBlocks.decode DataSubBlocks.encode
  dsimp only
  simp only [DataSubBlock.BLOCK_TERMINATOR]
  rw [List.append_assoc]
  rw [DataSubBlocks.decodeFuel_encode blocks _ [] rest cx h
    (by
      have := encode_chain_length_ge blocks
      simp only [List.length_append, List.length_cons, List.length_nil]
      omega)]
  simp [List.length_append]

/-- C5: for every finite sequence of well-formed data-sub-block chunks (length
byte equal to the data length, between 1 and 255), encoding the chain (each
chunk's length byte then its bytes, then one zero terminator) and decoding the
resulting bytes yields the identical chunk sequence, consuming the whole
encoding.  This covers the empty chain and chunks of any data length from 1 to
255. -/
theorem c5_chain_round_trip (s : DataSubBlocks)
    (h : ∀ b ∈ s.blocks,
      b.block_size = b.data.length ∧ 0 < b.block_size ∧ b.block_size ≤ 255) :
    DataSubBlocks.decode s.encode { offset := 0, graphic_control_extension := none }
      = .ok (s, [], { offset := s.encode.length, graphic_control_extension := none }) := by
  have h2 := DataSubBlocks.decode_encode_chain s []
    { offset := 0, graphic_control_extension := none }
    (fun b hb => ⟨(h b hb).1, (h b hb).2.1⟩)
  simpa using h2

set_option maxRecDepth 10000 in
/-- Witness for C5: a chain of a 1-byte chunk and a 255-byte chunk. -/
theorem c5_chain_round_trip_witness :
    DataSubBlocks.decode
        (DataSubBlocks.encode { blocks := [{ block_size := 1, data := [7] },
          { block_size := 255, data := List.replicate 255 9 }] })
        { offset := 0, graphic_control_extension := none }
      = .ok ({ blocks := [{ block_size := 1, data := [7] },
          { block_size := 255, data := List.replicate 255 9 }] }, [],
          { offset := 259, graphic_control_extension := none }) :=
  c5_chain_round_trip _ (by decide)

/-- Writing a u16 value big-endian as the encoder does and reading it back as
the decoder does is the identity below 65536. -/
theorem u16_round (x : Nat) (h : x < 65536) :
    u16of (u8cast (x >>> 8)) (u8cast (u16shl x 8 >>> 8)) = x := by
  unfold u16of u8cast u16shl
  simp only [Nat.shiftRight_eq_div_pow, Nat.shiftLeft_eq]
  have hlo : x * 2 ^ 8 % 65536 / 2 ^ 8 % 256 = x % 256 := by
    norm_num
    omega
  have hhi : x / 2 ^ 8 % 256 = x / 256 := by
    norm_num
    omega
  rw [hlo, hhi]
  have hor := Nat.mul_add_lt_is_or (b := x % 256) (i := 8) (by omega) (x / 256)
  calc x / 256 * 2 ^ 8 ||| x % 256
      = 2 ^ 8 * (x / 256) ||| x % 256 := by rw [Nat.mul_comm]
    _ = 2 ^ 8 * (x / 256) + x % 256 := hor.symm
    _ = x := by omega

/-- Reading a big-endian u16 back from its encoding recovers the value and
leaves the rest. -/
theorem readU16_encodeU16 (x : Nat) (h : x < 65536) (rest : List Nat) (off : Nat) :
    readU16 (encodeU16 x ++ rest) off = .ok (x, rest) := by
  simp only [encodeU16, List.cons_append, List.nil_append, readU16]
  rw [u16_round x h]

/-- Reading a slice whose requested length matches an explicit prefix yields
that prefix and the remainder. -/
theorem readSlice_exact (pre post : List Nat) (off n : Nat) (h : pre.length = n) :
    readSlice (pre ++ post) off n = .ok (pre, post) := by
  unfold readSlice
  rw [if_pos (by simp only [List.length_append]; omega),
    List.take_left' h, List.drop_left' h]

/-- Well-formed chunk chain: every chunk's length byte equals its data length
and lies between 1 and 255 (a nonzero u8). -/
def WfChunks (s : DataSubBlocks) : Prop :=
  ∀ b ∈ s.blocks, b.block_size = b.data.length ∧ 0 < b.block_size ∧ b.block_size ≤ 255

/-- Well-formed graphic-control extension: fields fit in their wire widths. -/
def WfGce (g : GraphicControlExtension) : Prop :=
  g.packed_fields < 256 ∧ g.delay_time < 65536 ∧ g.transparent_color_index < 256

/-- Well-formed screen descriptor: u16 fields in range, and the global color
table present exactly when the packed flag bit is set, with the byte length
dictated by the size exponent. -/
def WfLsd (s : LogicalScreenDescriptor) : Prop :=
  s.logical_screen_width < 65536 ∧ s.logical_screen_height < 65536 ∧
  (match s.global_color_table with
   | some t => s.global_color_table_flag = 1 ∧
       t.pixels.length = 3 * 2 ^ (s.global_color_table_size + 1)
   | none => s.global_color_table_flag ≠ 1)

/-- Well-formed application extension: 8-byte identifier, 3-byte
authentication code, well-formed chain. -/
def WfApp (a : ApplicationExtension) : Prop :=
  a.identifier.length = 8 ∧ a.authentication_code.length = 3 ∧ WfChunks a.data

/-- Well-formed comment extension. -/
def WfComment (c : CommentExtension) : Prop := WfChunks c.data

/-- Well-formed plain-text extension: u16 fields in range, well-formed chain,
and no attached graphic-control modifier (the source encoder emits an attached
modifier inside the plain-text block, which its own decoder cannot re-read, so
round-tripping documents requires plain-text blocks without one). -/
def WfPlainText (p : PlainTextExtension) : Prop :=
  p.text_grid_left_position < 65536 ∧ p.text_grid_top_position < 65536 ∧
  p.text_grid_width < 65536 ∧ p.text_grid_height < 65536 ∧
  WfChunks p.data ∧ p.graphic_control_extension = none

/-- Well-formed image descriptor: u16 fields in range, the local color table
present exactly when the packed flag bit is set with the dictated length,
well-formed pixel chain, and a well-formed attached modifier when present. -/
def WfImage (i : ImageDescriptor) : Prop :=
  i.image_left_position < 65536 ∧ i.image_top_position < 65536 ∧
  i.image_width < 65536 ∧ i.image_height < 65536 ∧
  (match i.local_color_table with
   | some t => i.local_color_table_flag = 1 ∧
       t.pixels.length = 3 * 2 ^ (i.local_color_table_size + 1)
   | none => i.local_color_table_flag ≠ 1) ∧
  WfChunks i.image_data.image_data ∧
  (∀ g, i.graphic_control_extension = some g → WfGce g)

/-- Well-formed rendering block relative to a screen descriptor: a plain-text
block additionally requires a global color table (otherwise the decoder drops
it). -/
def WfBlock (lsd : LogicalScreenDescriptor) : GraphicRenderingBlock → Prop
  | GraphicRenderingBlock.PlainText p => WfPlainText p ∧ lsd.global_color_table.isSome = true
  | GraphicRenderingBlock.Image i => WfImage i

/-- Well-formed document. -/
def WfGif (d : GifData) : Prop :=
  WfLsd d.logical_screen_descriptor ∧
  (∀ a ∈ d.application_extensions, WfApp a) ∧
  (∀ c ∈ d.comment_extensions, WfComment c) ∧
  (∀ b ∈ d.graphic_rendering_blocks, WfBlock d.logical_screen_descriptor b)

/-- No block of the document is filtered when encoding for version `v`: for
the earlier version 87a this requires no application extensions, no comment
extensions, and only image blocks without attached graphic-control modifiers. -/
def NoFiltered (d : GifData) (v : Version) : Prop :=
  v = Version.V87a →
    d.application_extensions = [] ∧ d.comment_extensions = [] ∧
    (∀ b ∈ d.graphic_rendering_blocks, ∃ i, b = GraphicRenderingBlock.Image i ∧
      i.graphic_control_extension = none)

/-- Decoding the encoding of either version tag recovers the tag. -/
theorem Version.decode_encode_tag (v : Version) (rest : List Nat) (cx : Context) :
    Version.decode (v.encode ++ rest) cx
      = .ok (v, rest, { cx with offset := cx.offset + 3 }) := by
  cases v with
  | V87a =>
    unfold Version.encode Version.decode
    rw [readSlice_exact [0x38, 0x37, 0x61] rest cx.offset 3 rfl]
    simp
  | V89a =>
    unfold Version.encode Version.decode
    rw [readSlice_exact [0x38, 0x39, 0x61] rest cx.offset 3 rfl]
    simp

/-- Decoding the encoding of a well-formed screen descriptor recovers it and
consumes exactly its bytes. -/
theorem LogicalScreenDescriptor.decode_encode_lsd (s : LogicalScreenDescriptor) (rest : List Nat)
    (cx : Context) (hwf : WfLsd s) :
    LogicalScreenDescriptor.decode (s.encode ++ rest) cx
      = .ok (s, rest, { cx with offset := cx.offset + s.encode.length }) := by
  obtain ⟨w, h, pf, bg, ar, gct⟩ := s
  obtain ⟨hw, hh, hgct⟩ := hwf
  have hw2 : w < 65536 := hw
  have hh2 : h < 65536 := hh
  cases gct with
  | none =>
    have hflag : ¬ u8shr pf 7 = 1 := hgct
    unfold LogicalScreenDescriptor.encode LogicalScreenDescriptor.decode
    dsimp only [LogicalScreenDescriptor.global_color_table_flag,
      LogicalScreenDescriptor.global_color_table_size]
    simp only [List.append_assoc, List.cons_append, List.nil_append]
    rw [readU16_encodeU16 w hw2]
    dsimp only
    rw [readU16_encodeU16 h hh2]
    dsimp only [readU8]
    rw [if_neg hflag]
    simp [encodeU16]
  | some t =>
    have hflag : u8shr pf 7 = 1 := hgct.1
    have hlen : t.pixels.length = 3 * 2 ^ (u8shr (u8shl pf 5) 5 + 1) := hgct.2
    unfold LogicalScreenDescriptor.encode LogicalScreenDescriptor.decode
    dsimp only [LogicalScreenDescriptor.global_color_table_flag,
      LogicalScreenDescriptor.global_color_table_size]
    simp only [List.append_assoc, List.cons_append, List.nil_append]
    rw [readU16_encodeU16 w hw2]
    dsimp only
    rw [readU16_encodeU16 h hh2]
    dsimp only [readU8]
    rw [if_pos hflag]
    rw [readSlice_exact t.pixels rest _ _ hlen]
    simp only [Except.ok.injEq, Prod.mk.injEq, Context.mk.injEq, and_true, true_and]
    simp [encodeU16, List.length_append]
    omega

/-- Decoding the body of an encoded graphic-control extension (after the
introducer and label) recovers it and consumes its six body bytes. -/
theorem GraphicControlExtension.decode_encode_gce (g : GraphicControlExtension) (rest : List Nat)
    (cx : Context) (hd : g.delay_time < 65536) :
    GraphicControlExtension.decode
        (0x04 :: g.packed_fields :: (encodeU16 g.delay_time ++
          (g.transparent_color_index :: 0 :: rest))) cx
      = .ok (g, rest, { cx with offset := cx.offset + 6 }) := by
  obtain ⟨pf, d, t⟩ := g
  have hd2 : d < 65536 := hd
  unfold GraphicControlExtension.decode
  simp only [readU8, GraphicControlExtension.BLOCK_SIZE, DataSubBlock.BLOCK_TERMINATOR]
  rw [if_neg (by decide)]
  rw [readU16_encodeU16 d hd2]
  simp

/-- Decoding the chain of an encoded comment extension (after the introducer
and label) recovers it and consumes exactly the chain bytes. -/
theorem CommentExtension.decode_encode_comment (c : CommentExtension) (rest : List Nat) (cx : Context)
    (hc : WfChunks c.data) :
    CommentExtension.decode (c.data.encode ++ rest) cx
      = .ok (c, rest, { cx with offset := cx.offset + c.data.encode.length }) := by
  obtain ⟨data⟩ := c
  unfold CommentExtension.decode
  rw [DataSubBlocks.decode_encode_chain data rest cx (fun b hb => ⟨(hc b hb).1, (hc b hb).2.1⟩)]

/-- Decoding the body of an encoded application extension (after the
introducer and label) recovers it and consumes exactly its bytes. -/
theorem ApplicationExtension.decode_encode_app (a : ApplicationExtension) (rest : List Nat)
    (cx : Context) (hwf : WfApp a) :
    ApplicationExtension.decode
        (ApplicationExtension.BLOCK_SIZE :: (a.identifier ++ (a.authentication_code ++
          (a.data.encode ++ rest)))) cx
      = .ok (a, rest, { cx with offset := cx.offset + 12 + a.data.encode.length }) := by
  obtain ⟨ident, auth, data⟩ := a
  obtain ⟨hid, hauth, hchunks⟩ := hwf
  have hid2 : ident.length = 8 := hid
  have hauth2 : auth.length = 3 := hauth
  unfold ApplicationExtension.decode
  simp only [readU8, ApplicationExtension.BLOCK_SIZE]
  rw [if_neg (by decide)]
  rw [readSlice_exact ident _ _ _ hid2]
  dsimp only
  rw [readSlice_exact auth _ _ _ hauth2]
  dsimp only
  rw [DataSubBlocks.decode_encode_chain data rest _
    (fun b hb => ⟨(hchunks b hb).1, (hchunks b hb).2.1⟩)]

/-- Decoding the body of an encoded plain-text extension (after the introducer
and label) yields its fields with the pending modifier attached from the
context, clears the pending slot, and consumes exactly its bytes. -/
theorem PlainTextExtension.decode_encode_plaintext (p : PlainTextExtension) (rest : List Nat)
    (cx : Context) (h1 : p.text_grid_left_position < 65536)
    (h2 : p.text_grid_top_position < 65536) (h3 : p.text_grid_width < 65536)
    (h4 : p.text_grid_height < 65536) (hchunks : WfChunks p.data) :
    PlainTextExtension.decode
        (PlainTextExtension.BLOCK_SIZE :: (encodeU16 p.text_grid_left_position ++
          (encodeU16 p.text_grid_top_position ++ (encodeU16 p.text_grid_width ++
            (encodeU16 p.text_grid_height ++ (p.character_cell_width ::
              p.character_cell_height :: p.text_foreground_color_index ::
                p.text_background_color_index :: (p.data.encode ++ rest))))))) cx
      = .ok ({ p with graphic_control_extension := cx.graphic_control_extension }, rest,
          { offset := cx.offset + 13 + p.data.encode.length,
            graphic_control_extension := none }) := by
  obtain ⟨gl, gt, gw, gh, cw, ch, fg, bg, data, gce⟩ := p
  have h1b : gl < 65536 := h1
  have h2b : gt < 65536 := h2
  have h3b : gw < 65536 := h3
  have h4b : gh < 65536 := h4
  unfold PlainTextExtension.decode
  simp only [readU8, PlainTextExtension.BLOCK_SIZE]
  rw [if_neg (by decide)]
  rw [readU16_encodeU16 gl h1b]
  dsimp only
  rw [readU16_encodeU16 gt h2b]
  dsimp only
  rw [readU16_encodeU16 gw h3b]
  dsimp only
  rw [readU16_encodeU16 gh h4b]
  dsimp only [readU8]
  rw [DataSubBlocks.decode_encode_chain data rest _
    (fun b hb => ⟨(hchunks b hb).1, (hchunks b hb).2.1⟩)]

/-- Decoding encoded table-based image data recovers it, consuming the LZW
byte and the chain. -/
theorem TableBasedImageData.decode_encode_tbid (tb : TableBasedImageData) (rest : List Nat)
    (cx : Context) (hchunks : WfChunks tb.image_data) :
    TableBasedImageData.decode (tb.encode ++ rest) cx
      = .ok (tb, rest, { cx with offset := cx.offset + 1 + tb.image_data.encode.length }) := by
  obtain ⟨lzw, chain⟩ := tb
  unfold TableBasedImageData.encode TableBasedImageData.decode
  simp only [List.cons_append, readU8]
  rw [DataSubBlocks.decode_encode_chain chain rest _
    (fun b hb => ⟨(hchunks b hb).1, (hchunks b hb).2.1⟩)]

/-- Decoding the body of an encoded image descriptor (after the separator)
yields its fields with the pending modifier attached from the context, clears
the pending slot, and consumes exactly its bytes. -/
theorem ImageDescriptor.decode_encode_image (i : ImageDescriptor) (rest : List Nat) (cx : Context)
    (hwf : WfImage i) :
    ImageDescriptor.decode
        (encodeU16 i.image_left_position ++ (encodeU16 i.image_top_position ++
          (encodeU16 i.image_width ++ (encodeU16 i.image_height ++
            (i.packed_fields ::
              ((match i.local_color_table with
                | some t => t.pixels
                | none => []) ++ (i.image_data.encode ++ rest))))))) cx
      = .ok ({ i with graphic_control_extension := cx.graphic_control_extension }, rest,
          { offset := cx.offset + 9 +
              (match i.local_color_table with
               | some t => t.pixels.length
               | none => 0) + 1 + i.image_data.image_data.encode.length,
            graphic_control_extension := none }) := by
  obtain ⟨il, it, iw, ih, pf, lct, tbid, gce⟩ := i
  obtain ⟨h1, h2, h3, h4, hlct, hchunks, hgce⟩ := hwf
  have h1b : il < 65536 := h1
  have h2b : it < 65536 := h2
  have h3b : iw < 65536 := h3
  have h4b : ih < 65536 := h4
  cases lct with
  | none =>
    have hflag : ¬ u8shr pf 7 = 1 := hlct
    unfold ImageDescriptor.decode
    dsimp only
    rw [readU16_encodeU16 il h1b]
    dsimp only
    rw [readU16_encodeU16 it h2b]
    dsimp only
    rw [readU16_encodeU16 iw h3b]
    dsimp only
    rw [readU16_encodeU16 ih h4b]
    dsimp only [readU8, List.nil_append]
    rw [if_neg hflag]
    dsimp only
    rw [TableBasedImageData.decode_encode_tbid tbid rest _ hchunks]
  | some t =>
    have hflag : u8shr pf 7 = 1 := hlct.1
    have hlen : t.pixels.length = 3 * 2 ^ (u8shr (u8shl pf 5) 5 + 1) := hlct.2
    unfold ImageDescriptor.decode
    dsimp only
    rw [readU16_encodeU16 il h1b]
    dsimp only
    rw [readU16_encodeU16 it h2b]
    dsimp only
    rw [readU16_encodeU16 iw h3b]
    dsimp only
    rw [readU16_encodeU16 ih h4b]
    dsimp only [readU8]
    rw [if_pos hflag]
    rw [readSlice_exact t.pixels _ _ _ hlen]
    dsimp only
    rw [TableBasedImageData.decode_encode_tbid tbid rest _ hchunks]
    simp only [Except.ok.injEq, Prod.mk.injEq, Context.mk.injEq, and_true, true_and]
    rw [hlen]

/-- One loop iteration over an encoded graphic-control extension stores it in
the pending slot (overwriting any previous value) and consumes its bytes. -/
theorem decodeLoop_step_gce (g : GraphicControlExtension) (fuel : Nat) (rest : List Nat)
    (cx : Context) (dc : Bool) (lsd : LogicalScreenDescriptor)
    (A : List ApplicationExtension) (B : List GraphicRenderingBlock)
    (C : List CommentExtension) (hd : g.delay_time < 65536) :
    ∃ off, decodeLoop (fuel + 1) (g.encode ++ rest) cx dc lsd A B C
      = decodeLoop fuel rest { offset := off, graphic_control_extension := some g }
          dc lsd A B C := by
  refine ⟨cx.offset + 1 + 1 + 6, ?_⟩
  simp only [GraphicControlExtension.encode, ExtensionBlock.INTRODUCER,
    GraphicControlExtension.LABEL, GraphicControlExtension.BLOCK_SIZE,
    DataSubBlock.BLOCK_TERMINATOR, List.cons_append, List.nil_append, List.append_assoc]
  rw [decodeLoop]
  unfold ExtensionBlock.decode
  simp only [readU8, ExtensionBlock.INTRODUCER, GraphicControlExtension.LABEL,
    ImageDescriptor.SEPARATOR, TRAILER]
  rw [GraphicControlExtension.decode_encode_gce g rest _ hd]
  simp

/-- One loop iteration over an encoded application extension appends it to the
accumulated application list and consumes its bytes. -/
theorem decodeLoop_step_app (a : ApplicationExtension) (fuel : Nat) (rest : List Nat)
    (cx : Context) (dc : Bool) (lsd : LogicalScreenDescriptor)
    (A : List ApplicationExtension) (B : List GraphicRenderingBlock)
    (C : List CommentExtension) (hwf : WfApp a) :
    ∃ off, decodeLoop (fuel + 1) (a.encode ++ rest) cx dc lsd A B C
      = decodeLoop fuel rest
          { offset := off, graphic_control_extension := cx.graphic_control_extension }
          dc lsd (A ++ [a]) B C := by
  refine ⟨cx.offset + 1 + 1 + 12 + a.data.encode.length, ?_⟩
  simp only [ApplicationExtension.encode, ExtensionBlock.INTRODUCER,
    ApplicationExtension.LABEL, List.cons_append, List.nil_append, List.append_assoc]
  rw [decodeLoop]
  unfold ExtensionBlock.decode
  simp only [readU8, ExtensionBlock.INTRODUCER, GraphicControlExtension.LABEL,
    CommentExtension.LABEL, PlainTextExtension.LABEL, ApplicationExtension.LABEL,
    ImageDescriptor.SEPARATOR, TRAILER]
  rw [ApplicationExtension.decode_encode_app a rest _ hwf]
  simp

/-- One loop iteration over an encoded comment extension (decoded with
`discard_comments = false`) appends it to the accumulated comment list and
consumes its bytes. -/
theorem decodeLoop_step_comment (c : CommentExtension) (fuel : Nat) (rest : List Nat)
    (cx : Context) (lsd : LogicalScreenDescriptor)
    (A : List ApplicationExtension) (B : List GraphicRenderingBlock)
    (C : List CommentExtension) (hwf : WfComment c) :
    ∃ off, decodeLoop (fuel + 1) (c.encode ++ rest) cx false lsd A B C
      = decodeLoop fuel rest
          { offset := off, graphic_control_extension := cx.graphic_control_extension }
          false lsd A B (C ++ [c]) := by
  refine ⟨cx.offset + 1 + 1 + c.data.encode.length, ?_⟩
  simp only [CommentExtension.encode, ExtensionBlock.INTRODUCER,
    CommentExtension.LABEL, List.cons_append, List.nil_append, List.append_assoc]
  rw [decodeLoop]
  unfold ExtensionBlock.decode
  simp only [readU8, ExtensionBlock.INTRODUCER, GraphicControlExtension.LABEL,
    CommentExtension.LABEL, ImageDescriptor.SEPARATOR, TRAILER]
  rw [CommentExtension.decode_encode_comment c rest _ hwf]
  simp

/-- One loop iteration over an encoded plain-text extension (no attached
modifier, global palette present, nothing pending) appends it to the rendering
blocks and consumes its bytes. -/
theorem decodeLoop_step_plaintext (p : PlainTextExtension) (fuel : Nat) (rest : List Nat)
    (cx : Context) (dc : Bool) (lsd : LogicalScreenDescriptor)
    (A : List ApplicationExtension) (B : List GraphicRenderingBlock)
    (C : List CommentExtension) (hwf : WfPlainText p)
    (hgt : lsd.global_color_table.isSome = true)
    (hpend : cx.graphic_control_extension = none) :
    ∃ off, decodeLoop (fuel + 1) (p.encode ++ rest) cx dc lsd A B C
      = decodeLoop fuel rest { offset := off, graphic_control_extension := none }
          dc lsd A (B ++ [GraphicRenderingBlock.PlainText p]) C := by
  obtain ⟨h1, h2, h3, h4, hchunks, hgce⟩ := hwf
  refine ⟨cx.offset + 1 + 1 + 13 + p.data.encode.length, ?_⟩
  obtain ⟨gt, hgt2⟩ := Option.isSome_iff_exists.mp hgt
  simp only [PlainTextExtension.encode, hgce, ExtensionBlock.INTRODUCER,
    PlainTextExtension.LABEL, List.cons_append, List.nil_append, List.append_assoc]
  rw [decodeLoop]
  unfold ExtensionBlock.decode
  simp only [readU8, ExtensionBlock.INTRODUCER, GraphicControlExtension.LABEL,
    CommentExtension.LABEL, PlainTextExtension.LABEL, ImageDescriptor.SEPARATOR, TRAILER]
  rw [PlainTextExtension.decode_encode_plaintext p rest _ h1 h2 h3 h4 hchunks]
  simp only [hgt2, hpend]
  rw [← hgce]
  simp

/-- One loop iteration over the separator and body of an encoded image
descriptor appends the image (carrying the pending modifier) to the rendering
blocks, clears the pending slot and consumes the bytes. -/
theorem decodeLoop_step_image_body (i : ImageDescriptor) (fuel : Nat) (rest : List Nat)
    (cx : Context) (dc : Bool) (lsd : LogicalScreenDescriptor)
    (A : List ApplicationExtension) (B : List GraphicRenderingBlock)
    (C : List CommentExtension) (hwf : WfImage i) :
    ∃ off, decodeLoop (fuel + 1)
        (ImageDescriptor.SEPARATOR ::
          (encodeU16 i.image_left_position ++ (encodeU16 i.image_top_position ++
            (encodeU16 i.image_width ++ (encodeU16 i.image_height ++
              (i.packed_fields ::
                ((match i.local_color_table with
                  | some t => t.pixels
                  | none => []) ++ (i.image_data.encode ++ rest)))))))) cx dc lsd A B C
      = decodeLoop fuel rest { offset := off, graphic_control_extension := none }
          dc lsd A
          (B ++ [GraphicRenderingBlock.Image
            { i with graphic_control_extension := cx.graphic_control_extension }]) C := by
  refine ⟨cx.offset + 1 + 9 +
    (match i.local_color_table with
     | some t => t.pixels.length
     | none => 0) + 1 + i.image_data.image_data.encode.length, ?_⟩
  rw [decodeLoop]
  simp only [readU8, ExtensionBlock.INTRODUCER, ImageDescriptor.SEPARATOR, TRAILER]
  rw [ImageDescriptor.decode_encode_image i rest _ hwf]
  simp

/-- Number of top-level loop iterations an encoded rendering block takes: two
for an image with an attached graphic-control modifier (the modifier is a
separate extension block in the stream), one otherwise. -/
def loopSteps : GraphicRenderingBlock → Nat
  | GraphicRenderingBlock.Image i =>
    match i.graphic_control_extension with
    | some _ => 2
    | none => 1
  | GraphicRenderingBlock.PlainText _ => 1

/-- Total loop iterations for a list of encoded rendering blocks. -/
def totalSteps (bs : List GraphicRenderingBlock) : Nat := (bs.map loopSteps).sum

/-- A trailer byte at the cursor stops the loop successfully. -/
theorem decodeLoop_trailer (fuel : Nat) (rem1 : List Nat) (cx : Context) (dc : Bool)
    (lsd : LogicalScreenDescriptor) (A : List ApplicationExtension)
    (B : List GraphicRenderingBlock) (C : List CommentExtension) :
    decodeLoop (fuel + 1) (TRAILER :: rem1) cx dc lsd A B C = .ok (A, B, C) := by
  rw [decodeLoop]
  simp [TRAILER, ExtensionBlock.INTRODUCER, ImageDescriptor.SEPARATOR]

/-- The loop over a list of encoded application extensions appends them all in
order, taking one iteration and at least one byte each. -/
theorem decodeLoop_apps (as : List ApplicationExtension) :
    ∀ (fuel : Nat) (rest : List Nat) (cx : Context) (dc : Bool)
      (lsd : LogicalScreenDescriptor) (A : List ApplicationExtension)
      (B : List GraphicRenderingBlock) (C : List CommentExtension),
      (∀ a ∈ as, WfApp a) →
      ∃ off, decodeLoop (fuel + as.length)
          ((as.map ApplicationExtension.encode).flatten ++ rest) cx dc lsd A B C
        = decodeLoop fuel rest
            { offset := off, graphic_control_extension := cx.graphic_control_extension }
            dc lsd (A ++ as) B C := by
  induction as with
  | nil =>
    intro fuel rest cx dc lsd A B C _
    exact ⟨cx.offset, by simp⟩
  | cons a as ih =>
    intro fuel rest cx dc lsd A B C hwf
    obtain ⟨o1, h1⟩ := decodeLoop_step_app a (fuel + as.length)
      ((as.map ApplicationExtension.encode).flatten ++ rest) cx dc lsd A B C
      (hwf a (by simp))
    obtain ⟨o2, h2⟩ := ih fuel rest
      { offset := o1, graphic_control_extension := cx.graphic_control_extension }
      dc lsd (A ++ [a]) B C (fun x hx => hwf x (by simp [hx]))
    refine ⟨o2, ?_⟩
    simp only [List.map_cons, List.flatten_cons, List.append_assoc, List.length_cons]
    rw [← Nat.add_assoc, h1, h2]
    simp

/-- The loop over a list of encoded comment extensions (decoded with
`discard_comments = false`) appends them all in order. -/
theorem decodeLoop_comments (cs : List CommentExtension) :
    ∀ (fuel : Nat) (rest : List Nat) (cx : Context)
      (lsd : LogicalScreenDescriptor) (A : List ApplicationExtension)
      (B : List GraphicRenderingBlock) (C : List CommentExtension),
      (∀ c ∈ cs, WfComment c) →
      ∃ off, decodeLoop (fuel + cs.length)
          ((cs.map CommentExtension.encode).flatten ++ rest) cx false lsd A B C
        = decodeLoop fuel rest
            { offset := off, graphic_control_extension := cx.graphic_control_extension }
            false lsd A B (C ++ cs) := by
  induction cs with
  | nil =>
    intro fuel rest cx lsd A B C _
    exact ⟨cx.offset, by simp⟩
  | cons c cs ih =>
    intro fuel rest cx lsd A B C hwf
    obtain ⟨o1, h1⟩ := decodeLoop_step_comment c (fuel + cs.length)
      ((cs.map CommentExtension.encode).flatten ++ rest) cx lsd A B C
      (hwf c (by simp))
    obtain ⟨o2, h2⟩ := ih fuel rest
      { offset := o1, graphic_control_extension := cx.graphic_control_extension }
      lsd A B (C ++ [c]) (fun x hx => hwf x (by simp [hx]))
    refine ⟨o2, ?_⟩
    simp only [List.map_cons, List.flatten_cons, List.append_assoc, List.length_cons]
    rw [← Nat.add_assoc, h1, h2]
    simp

/-- The loop over a list of encoded rendering blocks (with the version
filtering of the encoder applied, no block actually filtered, and nothing
pending) appends them all in order, reattaching each image's graphic-control
modifier. -/
theorem decodeLoop_blocks (v : Version) (bs : List GraphicRenderingBlock) :
    ∀ (fuel : Nat) (rest : List Nat) (cx : Context) (dc : Bool)
      (lsd : LogicalScreenDescriptor) (A : List ApplicationExtension)
      (B : List GraphicRenderingBlock) (C : List CommentExtension),
      (∀ b ∈ bs, WfBlock lsd b) →
      (v = Version.V87a → ∀ b ∈ bs, ∃ i, b = GraphicRenderingBlock.Image i ∧
        i.graphic_control_extension = none) →
      cx.graphic_control_extension = none →
      ∃ off, decodeLoop (fuel + totalSteps bs)
          ((bs.map (fun block =>
            match block with
            | GraphicRenderingBlock.Image _ => block.encode v
            | GraphicRenderingBlock.PlainText _ =>
              if v = Version.V87a then [] else block.encode v)).flatten ++ rest)
          cx dc lsd A B C
        = decodeLoop fuel rest { offset := off, graphic_control_extension := none }
            dc lsd A (B ++ bs) C := by
  induction bs with
  | nil =>
    intro fuel rest cx dc lsd A B C _ _ hpend
    exact ⟨cx.offset, by simp [totalSteps, ← hpend]⟩
  | cons b bs ih =>
    intro fuel rest cx dc lsd A B C hwf hnf hpend
    cases b with
    | Image i =>
      have hwfi : WfImage i := hwf (GraphicRenderingBlock.Image i) (by simp)
      cases higce : i.graphic_control_extension with
      | none =>
        obtain ⟨o1, h1⟩ := decodeLoop_step_image_body i (fuel + totalSteps bs)
          (((bs.map (fun block =>
            match block with
            | GraphicRenderingBlock.Image _ => block.encode v
            | GraphicRenderingBlock.PlainText _ =>
              if v = Version.V87a then [] else block.encode v)).flatten ++ rest))
          cx dc lsd A B C hwfi
        rw [hpend] at h1
        obtain ⟨o2, h2⟩ := ih fuel rest
          { offset := o1, graphic_control_extension := none }
          dc lsd A (B ++ [GraphicRenderingBlock.Image
            { i with graphic_control_extension := none }]) C
          (fun x hx => hwf x (by simp [hx])) (fun hv x hx => hnf hv x (by simp [hx])) rfl
        refine ⟨o2, ?_⟩
        simp only [List.map_cons, List.flatten_cons, List.append_assoc]
        rw [show fuel + totalSteps (GraphicRenderingBlock.Image i :: bs)
            = fuel + totalSteps bs + 1 from by
          simp [totalSteps, loopSteps, higce]; omega]
        rw [show GraphicRenderingBlock.encode (GraphicRenderingBlock.Image i) v
            = ImageDescriptor.SEPARATOR ::
              (encodeU16 i.image_left_position ++ (encodeU16 i.image_top_position ++
                (encodeU16 i.image_width ++ (encodeU16 i.image_height ++
                  (i.packed_fields ::
                    ((match i.local_color_table with
                      | some t => t.pixels
                      | none => []) ++ i.image_data.encode)))))) from by
          simp [GraphicRenderingBlock.encode, ImageDescriptor.encode, higce,
            List.append_assoc]]
        simp only [List.cons_append, List.append_assoc]
        rw [h1, h2]
        have hieq : ({ i with graphic_control_extension := none } : ImageDescriptor) = i := by
          rw [← higce]
        rw [hieq]
        simp
      | some g =>
        have hv : v ≠ Version.V87a := by
          intro hveq
          obtain ⟨i2, hi2, hg2⟩ := hnf hveq (GraphicRenderingBlock.Image i) (by simp)
          cases hi2
          rw [higce] at hg2
          cases hg2
        have hdg : g.delay_time < 65536 := by
          obtain ⟨_, _, _, _, _, _, hgwf⟩ := hwfi
          exact (hgwf g higce).2.1
        obtain ⟨o1, h1⟩ := decodeLoop_step_gce g (fuel + totalSteps bs + 1)
          ((ImageDescriptor.SEPARATOR ::
            (encodeU16 i.image_left_position ++ (encodeU16 i.image_top_position ++
              (encodeU16 i.image_width ++ (encodeU16 i.image_height ++
                (i.packed_fields ::
                  ((match i.local_color_table with
                    | some t => t.pixels
                    | none => []) ++ i.image_data.encode))))))) ++
            (((bs.map (fun block =>
              match block with
              | GraphicRenderingBlock.Image _ => block.encode v
              | GraphicRenderingBlock.PlainText _ =>
                if v = Version.V87a then [] else block.encode v)).flatten ++ rest)))
          cx dc lsd A B C hdg
        obtain ⟨o2, h2⟩ := decodeLoop_step_image_body i (fuel + totalSteps bs)
          (((bs.map (fun block =>
            match block with
            | GraphicRenderingBlock.Image _ => block.encode v
            | GraphicRenderingBlock.PlainText _ =>
              if v = Version.V87a then [] else block.encode v)).flatten ++ rest))
          { offset := o1, graphic_control_extension := some g } dc lsd A B C hwfi
        obtain ⟨o3, h3⟩ := ih fuel rest
          { offset := o2, graphic_control_extension := none }
          dc lsd A (B ++ [GraphicRenderingBlock.Image
            { i with graphic_control_extension := some g }]) C
          (fun x hx => hwf x (by simp [hx])) (fun hveq x hx => hnf hveq x (by simp [hx])) rfl
        refine ⟨o3, ?_⟩
        simp only [List.map_cons, List.flatten_cons, List.append_assoc]
        rw [show fuel + totalSteps (GraphicRenderingBlock.Image i :: bs)
            = fuel + totalSteps bs + 1 + 1 from by
          simp [totalSteps, loopSteps, higce]; omega]
        rw [show GraphicRenderingBlock.encode (GraphicRenderingBlock.Image i) v
            = GraphicControlExtension.encode g ++
              (ImageDescriptor.SEPARATOR ::
                (encodeU16 i.image_left_position ++ (encodeU16 i.image_top_position ++
                  (encodeU16 i.image_width ++ (encodeU16 i.image_height ++
                    (i.packed_fields ::
                      ((match i.local_color_table with
                        | some t => t.pixels
                        | none => []) ++ i.image_data.encode))))))) from by
          simp [GraphicRenderingBlock.encode, ImageDescriptor.encode, higce, hv,
            List.append_assoc]]
        simp only [List.cons_append, List.append_assoc]
        simp only [List.cons_append, List.append_assoc] at h1
        rw [h1]
        simp only [List.cons_append, List.append_assoc] at h2
        rw [h2, h3]
        have hieq : ({ i with graphic_control_extension := some g } : ImageDescriptor)
            = i := by
          rw [← higce]
        rw [hieq]
        simp
    | PlainText p =>
      have hv : v ≠ Version.V87a := by
        intro hveq
        obtain ⟨i2, hi2, _⟩ := hnf hveq (GraphicRenderingBlock.PlainText p) (by simp)
        cases hi2
      have hwfp := hwf (GraphicRenderingBlock.PlainText p) (by simp)
      obtain ⟨o1, h1⟩ := decodeLoop_step_plaintext p (fuel + totalSteps bs)
        (((bs.map (fun block =>
          match block with
          | GraphicRenderingBlock.Image _ => block.encode v
          | GraphicRenderingBlock.PlainText _ =>
            if v = Version.V87a then [] else block.encode v)).flatten ++ rest))
        cx dc lsd A B C hwfp.1 hwfp.2 hpend
      obtain ⟨o2, h2⟩ := ih fuel rest
        { offset := o1, graphic_control_extension := none }
        dc lsd A (B ++ [GraphicRenderingBlock.PlainText p]) C
        (fun x hx => hwf x (by simp [hx])) (fun hveq x hx => hnf hveq x (by simp [hx])) rfl
      refine ⟨o2, ?_⟩
      simp only [List.map_cons, List.flatten_cons, List.append_assoc]
      rw [show fuel + totalSteps (GraphicRenderingBlock.PlainText p :: bs)
          = fuel + totalSteps bs + 1 from by
        simp [totalSteps, loopSteps]; omega]
      rw [if_neg hv]
      rw [show GraphicRenderingBlock.encode (GraphicRenderingBlock.PlainText p) v
          = p.encode from rfl]
      rw [h1, h2]
      simp

/-- Each encoded application extension takes at least one byte. -/
theorem apps_length_le (as : List ApplicationExtension) :
    as.length ≤ ((as.map ApplicationExtension.encode).flatten).length := by
  induction as with
  | nil => simp
  | cons a as ih =>
    simp only [List.length_cons, List.map_cons, List.flatten_cons, List.length_append,
      ApplicationExtension.encode, List.cons_append, List.nil_append]
    omega

/-- Each encoded comment extension takes at least one byte. -/
theorem comments_length_le (cs : List CommentExtension) :
    cs.length ≤ ((cs.map CommentExtension.encode).flatten).length := by
  induction cs with
  | nil => simp
  | cons c cs ih =>
    simp only [List.length_cons, List.map_cons, List.flatten_cons, List.length_append,
      CommentExtension.encode, List.cons_append, List.nil_append]
    omega

/-- Each encoded rendering block takes at least as many bytes as loop
iterations, when no block is filtered for the target version. -/
theorem blocks_steps_le (v : Version) (bs : List GraphicRenderingBlock)
    (hnf : v = Version.V87a → ∀ b ∈ bs, ∃ i, b = GraphicRenderingBlock.Image i ∧
      i.graphic_control_extension = none) :
    totalSteps bs ≤ ((bs.map (fun block =>
      match block with
      | GraphicRenderingBlock.Image _ => block.encode v
      | GraphicRenderingBlock.PlainText _ =>
        if v = Version.V87a then [] else block.encode v)).flatten).length := by
  induction bs with
  | nil => simp [totalSteps]
  | cons b bs ih =>
    have ih2 := ih (fun hv x hx => hnf hv x (by simp [hx]))
    have hstep : totalSteps (b :: bs) = loopSteps b + totalSteps bs := by
      simp [totalSteps]
    rw [hstep]
    simp only [List.map_cons, List.flatten_cons, List.length_append]
    have hunit : loopSteps b ≤ (match b with
        | GraphicRenderingBlock.Image _ => b.encode v
        | GraphicRenderingBlock.PlainText _ =>
          if v = Version.V87a then [] else b.encode v).length := by
      cases b with
      | Image i =>
        cases higce : i.graphic_control_extension with
        | none =>
          simp [loopSteps, higce, GraphicRenderingBlock.encode, ImageDescriptor.encode,
            List.length_append]
        | some g =>
          have hv : v ≠ Version.V87a := by
            intro hveq
            obtain ⟨i2, hi2, hg2⟩ := hnf hveq (GraphicRenderingBlock.Image i) (by simp)
            cases hi2
            rw [higce] at hg2
            cases hg2
          simp [loopSteps, higce, GraphicRenderingBlock.encode, ImageDescriptor.encode,
            hv, GraphicControlExtension.encode, List.length_append]
      | PlainText p =>
        have hv : v ≠ Version.V87a := by
          intro hveq
          obtain ⟨i2, hi2, _⟩ := hnf hveq (GraphicRenderingBlock.PlainText p) (by simp)
          cases hi2
        simp [loopSteps, hv, GraphicRenderingBlock.encode, PlainTextExtension.encode,
          List.length_append]
    omega

/-- Running the loop over the full encoded tail of a document (application
extensions, then comments, then rendering blocks, then the trailer) collects
exactly the document's lists, given enough fuel. -/
theorem decodeLoop_phases (v : Version) (apps : List ApplicationExtension)
    (comments : List CommentExtension) (blocks : List GraphicRenderingBlock)
    (lsd : LogicalScreenDescriptor) (cx : Context) (fuel : Nat)
    (hA : ∀ a ∈ apps, WfApp a) (hC : ∀ c ∈ comments, WfComment c)
    (hB : ∀ b ∈ blocks, WfBlock lsd b)
    (hnf : v = Version.V87a → ∀ b ∈ blocks, ∃ i, b = GraphicRenderingBlock.Image i ∧
      i.graphic_control_extension = none)
    (hpend : cx.graphic_control_extension = none)
    (hfuel : apps.length + comments.length + totalSteps blocks < fuel) :
    decodeLoop fuel
        ((apps.map ApplicationExtension.encode).flatten ++
          ((comments.map CommentExtension.encode).flatten ++
            ((blocks.map (fun block =>
              match block with
              | GraphicRenderingBlock.Image _ => block.encode v
              | GraphicRenderingBlock.PlainText _ =>
                if v = Version.V87a then [] else block.encode v)).flatten ++ [TRAILER])))
        cx false lsd [] [] []
      = .ok (apps, blocks, comments) := by
  rw [show fuel = fuel - (apps.length + comments.length + totalSteps blocks)
      + totalSteps blocks + comments.length + apps.length from by omega]
  obtain ⟨o1, h1⟩ := decodeLoop_apps apps
    (fuel - (apps.length + comments.length + totalSteps blocks)
      + totalSteps blocks + comments.length)
    ((comments.map CommentExtension.encode).flatten ++
      ((blocks.map (fun block =>
        match block with
        | GraphicRenderingBlock.Image _ => block.encode v
        | GraphicRenderingBlock.PlainText _ =>
          if v = Version.V87a then [] else block.encode v)).flatten ++ [TRAILER]))
    cx false lsd [] [] [] hA
  rw [h1]
  obtain ⟨o2, h2⟩ := decodeLoop_comments comments
    (fuel - (apps.length + comments.length + totalSteps blocks) + totalSteps blocks)
    ((blocks.map (fun block =>
      match block with
      | GraphicRenderingBlock.Image _ => block.encode v
      | GraphicRenderingBlock.PlainText _ =>
        if v = Version.V87a then [] else block.encode v)).flatten ++ [TRAILER])
    { offset := o1, graphic_control_extension := cx.graphic_control_extension }
    lsd ([] ++ apps) [] [] hC
  rw [h2]
  obtain ⟨o3, h3⟩ := decodeLoop_blocks v blocks
    (fuel - (apps.length + comments.length + totalSteps blocks)) [TRAILER]
    { offset := o2, graphic_control_extension :=
        ({ offset := o1, graphic_control_extension :=
          cx.graphic_control_extension } : Context).graphic_control_extension }
    false lsd ([] ++ apps) [] ([] ++ comments) hB hnf (by simp [hpend])
  rw [h3]
  rw [show fuel - (apps.length + comments.length + totalSteps blocks)
      = fuel - (apps.length + comments.length + totalSteps blocks) - 1 + 1 from by omega]
  rw [decodeLoop_trailer]
  simp

/-- Decoding the encoding of a well-formed document with no blocks filtered
for the target version recovers the document itself, with the version field
replaced by the target version. -/
theorem decode_encode_roundtrip (d : GifData) (v : Version)
    (hwf : WfGif d) (hnf : NoFiltered d v) :
    decode (d.encode v false) false = .ok { d with version := v } := by
  obtain ⟨ver, lsd, apps, comments, blocks⟩ := d
  obtain ⟨hlsd, hApps, hComments, hBlocks⟩ := hwf
  have hlsd2 : WfLsd lsd := hlsd
  have hApps2 : ∀ a ∈ apps, WfApp a := hApps
  have hComments2 : ∀ c ∈ comments, WfComment c := hComments
  have hBlocks2 : ∀ b ∈ blocks, WfBlock lsd b := hBlocks
  have hnf2 : v = Version.V87a → apps = [] ∧ comments = [] ∧
      (∀ b ∈ blocks, ∃ i, b = GraphicRenderingBlock.Image i ∧
        i.graphic_control_extension = none) := hnf
  have happsEq : (if v = Version.V87a then ([] : List Nat)
      else (List.map ApplicationExtension.encode apps).flatten)
      = (List.map ApplicationExtension.encode apps).flatten := by
    by_cases hv : v = Version.V87a
    · rw [if_pos hv, (hnf2 hv).1]
      simp
    · rw [if_neg hv]
  have hcommentsEq : (if (!false && decide (v ≠ Version.V87a)) = true then
      (List.map CommentExtension.encode comments).flatten else ([] : List Nat))
      = (List.map CommentExtension.encode comments).flatten := by
    by_cases hv : v = Version.V87a
    · rw [(hnf2 hv).2.1]
      simp [hv]
    · simp [hv]
  unfold GifData.encode decode
  dsimp only
  rw [happsEq, hcommentsEq]
  simp only [SIGNATURE, List.cons_append, List.nil_append, List.append_assoc, readU8]
  rw [Version.decode_encode_tag v]
  dsimp only
  rw [LogicalScreenDescriptor.decode_encode_lsd lsd _ _ hlsd2]
  dsimp only
  rw [decodeLoop_phases v apps comments blocks lsd _ _ hApps2 hComments2 hBlocks2
    (fun hv => (hnf2 hv).2.2) rfl
    (by
      have h1 := apps_length_le apps
      have h2 := comments_length_le comments
      have h3 := blocks_steps_le v blocks (fun hv => (hnf2 hv).2.2)
      simp only [List.length_append, List.length_cons, List.length_nil]
      omega)]
  simp

/-- C1 (counterexample): a stream consisting of the 89a header, one
graphic-control extension and the trailer is accepted by `decode` (the pending
modifier is silently dropped at the trailer), but re-encoding the unmodified
decoded document for the stream's original version with
`discard_comments = false` yields only header plus trailer — not the original
bytes.  This refutes the claim as stated, quantified over all accepted
streams. -/
theorem c1_round_trip_counterexample :
    decode (headerNoGct ++ [0x21, 0xf9, 4, 0, 0, 0, 0, 0, 0x3b]) false
      = .ok { version := Version.V89a, logical_screen_descriptor := lsdMinimal,
              application_extensions := [], comment_extensions := [],
              graphic_rendering_blocks := [] } ∧
    GifData.encode
        { version := Version.V89a, logical_screen_descriptor := lsdMinimal,
          application_extensions := [], comment_extensions := [],
          graphic_rendering_blocks := [] } Version.V89a false
      ≠ headerNoGct ++ [0x21, 0xf9, 4, 0, 0, 0, 0, 0, 0x3b] := by
  constructor
  · rfl
  · decide

/-- C1 (amended): for every well-formed document none of whose blocks is
filtered or dropped for the target version V — for 87a no application
extensions, no comment extensions, no plain-text blocks and no attached
graphic-control modifiers; at any version plain-text blocks carry no attached
modifier and require a global palette — encoding for V with
`discard_comments = false`, decoding the result, and re-encoding the decoded
document for V with `discard_comments = false` reproduces the byte stream
exactly. -/
theorem c1_round_trip_amended (d : GifData) (v : Version)
    (hwf : WfGif d) (hnf : NoFiltered d v) :
    Except.map (fun d2 => d2.encode v false) (decode (d.encode v false) false)
      = .ok (d.encode v false) := by
  rw [decode_encode_roundtrip d v hwf hnf]
  simp only [Except.map]
  obtain ⟨ver, lsd, apps, comments, blocks⟩ := d
  rfl

/-- A concrete document exercising every block kind for the C1 witness. -/
def docC1 : GifData :=
  { version := Version.V89a,
    logical_screen_descriptor :=
      { logical_screen_width := 2, logical_screen_height := 2, packed_fields := 0x91,
        background_color_index := 0, pixel_aspect_ratio := 0,
        global_color_table :=
          some { pixels := [10, 20, 30, 40, 50, 60, 70, 80, 90, 100, 110, 120] } },
    application_extensions := [appExt0],
    comment_extensions := [comExt0],
    graphic_rendering_blocks :=
      [GraphicRenderingBlock.Image
        { image_left_position := 1, image_top_position := 2, image_width := 3,
          image_height := 4, packed_fields := 0x80,
          local_color_table := some { pixels := [1, 2, 3, 4, 5, 6] },
          image_data := { lzw_minimum_code_size := 7,
                          image_data := { blocks := [{ block_size := 2, data := [11, 12] }] } },
          graphic_control_extension :=
            some { packed_fields := 5, delay_time := 258, transparent_color_index := 3 } },
       GraphicRenderingBlock.PlainText ptExt0] }

/-- Witness for the amended C1 at a document holding an application extension,
a comment, an image with an attached graphic-control modifier and a local
palette, and a plain-text block. -/
theorem c1_round_trip_amended_witness :
    Except.map (fun d2 => GifData.encode d2 Version.V89a false)
        (decode (GifData.encode docC1 Version.V89a false) false)
      = .ok (GifData.encode docC1 Version.V89a false) :=
  c1_round_trip_amended docC1 Version.V89a
    (by
      refine ⟨⟨by decide, by decide, by decide, by decide⟩, ?_, ?_, ?_⟩
      · intro a ha
        simp only [docC1, List.mem_singleton] at ha
        subst ha
        exact ⟨by decide, by decide, fun b hb => by simp [appExt0] at hb⟩
      · intro c hc
        simp only [docC1, List.mem_singleton] at hc
        subst hc
        exact fun b hb => by simp [comExt0] at hb
      · intro b hb
        simp only [docC1, List.mem_cons, List.mem_singleton] at hb
        rcases hb with hb | hb | hb
        · subst hb
          refine ⟨by decide, by decide, by decide, by decide, ⟨by decide, by decide⟩,
            ?_, fun g hg => by
              simp only [Option.some.injEq] at hg
              subst hg
              exact ⟨by decide, by decide, by decide⟩⟩
          intro bl hbl
          simp only [List.mem_singleton] at hbl
          subst hbl
          exact ⟨rfl, by decide, by decide⟩
        · subst hb
          exact ⟨⟨by decide, by decide, by decide, by decide,
            fun bl hbl => by simp [ptExt0] at hbl, rfl⟩, rfl⟩
        · cases hb)
    (fun hv => by cases hv)

end Giffer
